import Mathlib

/-!
Verification of the event-streaming pipeline core and room-geometry
normalization of `backend/main.py`.

The development shallowly embeds the Python source:

* JSON values are modelled by the inductive `Json`: integer numerals map
  to `Json.num`, numerals with a fraction or exponent (which `json.loads`
  turns into Python floats) map to `Json.flt`, carrying the exact decimal
  value as a rational, or infinity when the magnitude overflows the IEEE
  double range, as CPython's `float` conversion does for e.g. `1e400`;
  the nonstandard literals `Infinity`, `-Infinity` and `NaN` accepted by
  `json.loads` are also covered.  The binary rounding of finite doubles to
  53-bit mantissas is not modelled (finite floats keep their exact decimal
  value), which is immaterial to every claim checked here.
* Python's `json.loads` is modelled by the executable parser `jsonLoads`
  (duplicate object keys keep the last value, as a Python dict does).
* Exceptions are modelled by `Except PyErr`; `int(...)` applied to a float
  value truncates toward zero (raising `OverflowError` on an infinity and
  `ValueError` on a NaN), so the rescale arithmetic is modelled with
  `Int.tdiv` over exact integers.
* The broadcast bus (`ConnectionManager`) is modelled as a trace semantics
  over `BusState`; `asyncio.Queue` objects are identified by `Nat` ids and
  represented by their buffered contents.
* The pipeline orchestrator `run_full_pipeline` is modelled in the
  `EStateM String (List Event)` monad, with every external generation call
  supplied by a `GenOracle`.
-/

/-- A Python float as it matters to this program: a finite value (kept as
its exact decimal rational; IEEE rounding to 53 bits is not modelled), an
infinity, or a NaN. -/
inductive PyFloat where
  | finite (q : ℚ) : PyFloat
  | inf (neg : Bool) : PyFloat
  | nan : PyFloat
deriving DecidableEq, Repr

/-- JSON values as produced by `json.loads`: integer numerals become
Python ints (`num`), all other numerals and the nonstandard
`Infinity`/`-Infinity`/`NaN` literals become Python floats (`flt`). -/
inductive Json where
  | null : Json
  | bool (b : Bool) : Json
  | num (n : Int) : Json
  | flt (f : PyFloat) : Json
  | str (s : String) : Json
  | arr (xs : List Json) : Json
  | obj (kvs : List (String × Json)) : Json

/-- Python exception classes that the code under analysis can raise. -/
inductive PyErr where
  | typeError : PyErr
  | keyError : PyErr
  | indexError : PyErr
  | valueError : PyErr
  | overflowError : PyErr
deriving DecidableEq, Repr

/-! ### A JSON text parser modelling `json.loads`

The parser consumes a character list with explicit fuel.  It accepts the
standard JSON grammar plus Python's `Infinity`/`-Infinity`/`NaN`
extensions; `\u` string escapes are not supported (on such inputs the
modelled decoder reports failure; no claim involves them). -/

/-- Skip JSON whitespace. -/
def skipWs : List Char → List Char
  | [] => []
  | c :: cs => if c = ' ' ∨ c = '\n' ∨ c = '\t' ∨ c = '\r' then skipWs cs else c :: cs

/-- Decode a single-character string escape (no `\u` support). -/
def unescapeChar (c : Char) : Option Char :=
  if c = '"' then some '"'
  else if c = '\\' then some '\\'
  else if c = '/' then some '/'
  else if c = 'n' then some '\n'
  else if c = 't' then some '\t'
  else if c = 'r' then some '\r'
  else if c = 'b' then some (Char.ofNat 8)
  else if c = 'f' then some (Char.ofNat 12)
  else none

/-- Parse the body of a JSON string after the opening quote; returns the
decoded characters and the remaining input. -/
def parseStringBody : List Char → Option (List Char × List Char)
  | [] => none
  | '"' :: cs => some ([], cs)
  | '\\' :: rest =>
    match rest with
    | [] => none
    | e :: cs =>
      match unescapeChar e, parseStringBody cs with
      | some c, some (body, rem) => some (c :: body, rem)
      | _, _ => none
  | c :: cs =>
    match parseStringBody cs with
    | some (body, rem) => some (c :: body, rem)
    | none => none

/-- Take a maximal run of decimal digits. -/
def takeDigits : List Char → (List Char × List Char)
  | [] => ([], [])
  | c :: cs =>
    if c.isDigit then
      let (ds, rem) := takeDigits cs
      (c :: ds, rem)
    else ([], c :: cs)

/-- Numeric value of a digit run. -/
def digitsVal (ds : List Char) : Nat :=
  ds.foldl (fun acc c => acc * 10 + (c.toNat - 48)) 0

/-- Overflow boundary of IEEE double conversion: a decimal value with
magnitude at least `2^1024 - 2^970` rounds (half-to-even) to infinity, as
`float("1e400")` does in CPython. -/
def doubleOverflowLim : Nat := Nat.pow 2 1024 - Nat.pow 2 970

/-- Classify a decimal value as the Python float it converts to. -/
def pyFloatOfRat (q : ℚ) : PyFloat :=
  if doubleOverflowLim * q.den ≤ q.num.natAbs then .inf (q.num < 0) else .finite q

/-- Parse a JSON numeral: optional minus sign, integer part without
leading zeros, optional fraction, optional exponent.  A numeral with a
fraction or exponent is a Python float (`json.loads` calls `float` on it),
otherwise a Python int. -/
def parseNumLit (cs : List Char) : Option (Json × List Char) :=
  let (neg, cs1) :=
    match cs with
    | '-' :: rest => (true, rest)
    | _ => (false, cs)
  let (ids, cs2) := takeDigits cs1
  if ids.isEmpty then none
  else if ids.length > 1 ∧ ids.headD '0' = '0' then none
  else
    let (fds, cs3) :=
      match cs2 with
      | '.' :: rest => takeDigits rest
      | _ => ([], cs2)
    let fracPresent := match cs2 with | '.' :: _ => true | _ => false
    if fracPresent ∧ fds.isEmpty then none
    else
      let (expPresent, eneg, eds, cs4) :=
        match cs3 with
        | 'e' :: '+' :: rest => (true, false, (takeDigits rest).1, (takeDigits rest).2)
        | 'e' :: '-' :: rest => (true, true, (takeDigits rest).1, (takeDigits rest).2)
        | 'e' :: rest => (true, false, (takeDigits rest).1, (takeDigits rest).2)
        | 'E' :: '+' :: rest => (true, false, (takeDigits rest).1, (takeDigits rest).2)
        | 'E' :: '-' :: rest => (true, true, (takeDigits rest).1, (takeDigits rest).2)
        | 'E' :: rest => (true, false, (takeDigits rest).1, (takeDigits rest).2)
        | _ => (false, false, [], cs3)
      if expPresent ∧ eds.isEmpty then none
      else if ¬ fracPresent ∧ ¬ expPresent then
        some (.num (if neg then -(digitsVal ids : Int) else (digitsVal ids : Int)), cs2)
      else
        let mantN : Int := digitsVal ids * 10 ^ fds.length + digitsVal fds
        let mant : Int := if neg then -mantN else mantN
        let q : ℚ :=
          if eneg then mkRat mant (10 ^ (fds.length + digitsVal eds))
          else mkRat (mant * 10 ^ digitsVal eds) (10 ^ fds.length)
        some (.flt (pyFloatOfRat q), cs4)

/-- Insert a parsed object member the way a Python dict does: a repeated
key keeps its original position but takes the last value. -/
def dictInsert : List (String × Json) → String → Json → List (String × Json)
  | [], k, v => [(k, v)]
  | (k', v') :: rest, k, v =>
    if k' = k then (k', v) :: rest else (k', v') :: dictInsert rest k v

/-- Fold raw members into a Python dict (last value wins per key). -/
def dictOfMembers (kvs : List (String × Json)) : List (String × Json) :=
  kvs.foldl (fun acc kv => dictInsert acc kv.1 kv.2) []

/-- Check that the input starts with the given characters. -/
def expectChars : List Char → List Char → Option (List Char)
  | [], cs => some cs
  | e :: es, c :: cs => if c = e then expectChars es cs else none
  | _ :: _, [] => none

mutual

/-- Parse one JSON value. -/
def parseVal : Nat → List Char → Option (Json × List Char)
  | 0, _ => none
  | fuel + 1, cs =>
    match skipWs cs with
    | [] => none
    | c :: cs' =>
      if c = '"' then
        match parseStringBody cs' with
        | some (body, rem) => some (.str (String.mk body), rem)
        | none => none
      else if c = '[' then
        match skipWs cs' with
        | ']' :: rem => some (.arr [], rem)
        | cs'' =>
          match parseElems fuel cs'' with
          | some (xs, rem) => some (.arr xs, rem)
          | none => none
      else if c = '\x7b' then
        match skipWs cs' with
        | '\x7d' :: rem => some (.obj [], rem)
        | cs'' =>
          match parseMembers fuel cs'' with
          | some (kvs, rem) => some (.obj (dictOfMembers kvs), rem)
          | none => none
      else if c = 't' then
        match expectChars ['r', 'u', 'e'] cs' with
        | some rem => some (.bool true, rem)
        | none => none
      else if c = 'f' then
        match expectChars ['a', 'l', 's', 'e'] cs' with
        | some rem => some (.bool false, rem)
        | none => none
      else if c = 'n' then
        match expectChars ['u', 'l', 'l'] cs' with
        | some rem => some (.null, rem)
        | none => none
      else if c = 'I' then
        match expectChars ['n', 'f', 'i', 'n', 'i', 't', 'y'] cs' with
        | some rem => some (.flt (.inf false), rem)
        | none => none
      else if c = 'N' then
        match expectChars ['a', 'N'] cs' with
        | some rem => some (.flt .nan, rem)
        | none => none
      else if c = '-' then
        match expectChars ['I', 'n', 'f', 'i', 'n', 'i', 't', 'y'] cs' with
        | some rem => some (.flt (.inf true), rem)
        | none => parseNumLit (c :: cs')
      else
        parseNumLit (c :: cs')

/-- Parse the non-empty element list of a JSON array (after `[`). -/
def parseElems : Nat → List Char → Option (List Json × List Char)
  | 0, _ => none
  | fuel + 1, cs =>
    match parseVal fuel cs with
    | none => none
    | some (v, rem) =>
      match skipWs rem with
      | ',' :: rem' =>
        match parseElems fuel rem' with
        | some (vs, rem'') => some (v :: vs, rem'')
        | none => none
      | ']' :: rem' => some ([v], rem')
      | _ => none

/-- Parse the non-empty member list of a JSON object (after the brace). -/
def parseMembers : Nat → List Char → Option (List (String × Json) × List Char)
  | 0, _ => none
  | fuel + 1, cs =>
    match skipWs cs with
    | '"' :: cs' =>
      match parseStringBody cs' with
      | none => none
      | some (key, rem) =>
        match skipWs rem with
        | ':' :: rem' =>
          match parseVal fuel rem' with
          | none => none
          | some (v, rem'') =>
            match skipWs rem'' with
            | ',' :: rem3 =>
              match parseMembers fuel rem3 with
              | some (kvs, rem4) => some ((String.mk key, v) :: kvs, rem4)
              | none => none
            | '\x7d' :: rem3 => some ([(String.mk key, v)], rem3)
            | _ => none
        | _ => none
    | _ => none

end

/-- Model of Python's `json.loads`: parse a complete JSON document
(integer numerals only), requiring only trailing whitespace after the
value. -/
def jsonLoads (s : String) : Option Json :=
  match parseVal (3 * s.length + 8) s.toList with
  | some (j, rem) => if skipWs rem = [] then some j else none
  | none => none

example : jsonLoads "5" = some (.num 5) := by rfl
example : jsonLoads " [1, -2] " = some (.arr [.num 1, .num (-2)]) := by rfl
example : jsonLoads "[\x7b\"a\": \"b\"\x7d, true, null]" =
    some (.arr [.obj [("a", .str "b")], .bool true, .null]) := by rfl
set_option maxRecDepth 8192 in
example : jsonLoads "1.5" = some (.flt (.finite (mkRat 3 2))) := by rfl

set_option maxRecDepth 8192 in
example : jsonLoads "1e2" = some (.flt (.finite (mkRat 100 1))) := by rfl
example : jsonLoads "Infinity" = some (.flt (.inf false)) := by rfl
example : jsonLoads "[-Infinity, NaN]" = some (.arr [.flt (.inf true), .flt .nan]) := by rfl
example : jsonLoads "[\x7b\"a\": 1, \"a\": 2\x7d]" = some (.arr [.obj [("a", .num 2)]]) := by rfl
example : jsonLoads "not json" = none := by rfl
example : jsonLoads "[1," = none := by rfl

/-! ### The geometry normalizer (`parse_json_output`, `parse_room_data`) -/

/-- Fuelled worker for `pySplit`: split on the first occurrence of `sep`
(leftmost, non-overlapping), like Python's `str.split` with a separator. -/
def pySplitAux (sep : List Char) : Nat → List Char → List (List Char)
  | _, [] => [[]]
  | 0, cs => [cs]
  | fuel + 1, c :: cs =>
    match expectChars sep (c :: cs) with
    | some rest => [] :: pySplitAux sep fuel rest
    | none =>
      match pySplitAux sep fuel cs with
      | [] => [[c]]
      | p :: ps => (c :: p) :: ps

/-- Model of Python's `s.split(sep)` for a non-empty separator. -/
def pySplit (s sep : String) : List String :=
  (pySplitAux sep.toList (s.length + 1) s.toList).map String.mk

/-- Model of `json_output.split("```json")[1].split("```")[0]` applied when
the fence marker is present (main.py lines 85-86); `"```json" in s` holds
exactly when the split produces more than one part. -/
def extract_fenced (s : String) : String :=
  let parts := pySplit s "```json"
  if parts.length > 1 then
    (pySplit (parts.getD 1 "") "```").getD 0 ""
  else s

/-- Model of `parse_json_output` (main.py lines 83-91): strip markdown
fencing, parse, and return the Python list `[]` on a decode error. -/
def parse_json_output (s : String) : Json :=
  match jsonLoads (extract_fenced s) with
  | some j => j
  | none => .arr []

/-- Python iteration `for item in x`: lists yield their elements, strings
their characters, dicts their keys; other values raise `TypeError`. -/
def pyIter : Json → Except PyErr (List Json)
  | .arr xs => .ok xs
  | .str s => .ok (s.toList.map fun c => .str (String.mk [c]))
  | .obj kvs => .ok (kvs.map fun kv => .str kv.1)
  | _ => .error .typeError

/-- Whitespace stripped by Python's `str.strip` (ASCII subset; exotic
unicode spaces are not modelled, no claim involves them). -/
def isPyWs (c : Char) : Bool :=
  c = ' ' ∨ c = '\t' ∨ c = '\n' ∨ c = '\r' ∨ c.toNat = 11 ∨ c.toNat = 12

/-- Drop leading Python whitespace. -/
def dropPyWs : List Char → List Char
  | [] => []
  | c :: cs => if isPyWs c then dropPyWs cs else c :: cs

/-- Digits of `int()`'s literal grammar after the first digit: further
digits, with single underscores allowed only between digits. -/
def pyDigitsRest (acc : Nat) : List Char → Option Nat
  | [] => some acc
  | '_' :: c :: cs =>
    if c.isDigit then pyDigitsRest (acc * 10 + (c.toNat - 48)) cs else none
  | '_' :: [] => none
  | c :: cs =>
    if c.isDigit then pyDigitsRest (acc * 10 + (c.toNat - 48)) cs else none

/-- A nonempty digit run with optional medial underscores. -/
def pyDigits : List Char → Option Nat
  | c :: cs => if c.isDigit then pyDigitsRest (c.toNat - 48) cs else none
  | [] => none

/-- Python `int(s)` on a string: strip surrounding whitespace, allow one
leading `+` or `-`, then decimal digits with medial underscores; anything
else raises `ValueError` (unicode digits are not modelled). -/
def pyStrToInt (s : String) : Option Int :=
  let cs := (dropPyWs ((dropPyWs s.toList.reverse).reverse))
  match cs with
  | '+' :: rest => (pyDigits rest).map fun n => (n : Int)
  | '-' :: rest => (pyDigits rest).map fun n => -(n : Int)
  | rest => (pyDigits rest).map fun n => (n : Int)

/-- Python `int(c)`: ints pass through, booleans become 0/1, finite floats
truncate toward zero, infinite floats raise `OverflowError`, NaN raises
`ValueError`, strings are parsed with `int()`'s literal grammar (raising
`ValueError` on failure), anything else raises `TypeError`. -/
def pyToInt : Json → Except PyErr Int
  | .num n => .ok n
  | .bool b => .ok (if b then 1 else 0)
  | .flt (.finite q) => .ok (Int.tdiv q.num q.den)
  | .flt (.inf _) => .error .overflowError
  | .flt .nan => .error .valueError
  | .str s =>
    match pyStrToInt s with
    | some n => .ok n
    | none => .error .valueError
  | _ => .error .typeError

/-- Python `d.get(key, default)` for the dict case; the normalizer only
reaches `.get` after a successful `item["box_2d"]` subscript, so `item` is
always a dict there and the catch-all branch is unreachable. -/
def pyGet (item : Json) (key : String) (dflt : Json) : Json :=
  match item with
  | .obj kvs => (kvs.lookup key).getD dflt
  | _ => dflt

/-- Coordinate extraction of main.py line 99:
`[int(c) for c in item["box_2d"]]`. Subscripting a non-dict raises
`TypeError`; a missing key raises `KeyError`. -/
def extractCoords (item : Json) : Except PyErr (List Int) :=
  match item with
  | .obj kvs =>
    match kvs.lookup "box_2d" with
    | none => .error .keyError
    | some box =>
      match pyIter box with
      | .error e => .error e
      | .ok elems => elems.mapM pyToInt
  | _ => .error .typeError

/-- Rescale of main.py lines 100-103: `int(c / 1000 * dim)` — CPython's
`int()` truncates toward zero, which on exact rationals is `Int.tdiv` of
`c * dim` by 1000. -/
def rescale (c dim : Int) : Int := Int.tdiv (c * dim) 1000

/-- A detected room (the frozen dataclass `RoomData` of main.py lines
73-81).  `label` and `dimensions` hold whatever JSON value the payload
carried, as the Python code stores them unchecked. -/
structure RoomData where
  y0 : Int
  x0 : Int
  y1 : Int
  x1 : Int
  label : Json
  dimensions : Json

/-- Geometry core of main.py lines 100-113: rescale to pixel space, drop
degenerate boxes, then (only for `expand_percent > 0`) symmetrically expand
by `expand_percent`% and clamp into `[0, dim]`.  `int(x0 - dx)` on the
exact rational `(200*x0 - (x1-x0)*ep)/200` is truncation toward zero. -/
def normalizeBox (ny0 nx0 ny1 nx1 img_height img_width expand_percent : Int) :
    Option (Int × Int × Int × Int) :=
  let y0 := rescale ny0 img_height
  let x0 := rescale nx0 img_width
  let y1 := rescale ny1 img_height
  let x1 := rescale nx1 img_width
  if y0 ≥ y1 ∨ x0 ≥ x1 then none
  else if expand_percent > 0 then
    some (max 0 (Int.tdiv (200 * y0 - (y1 - y0) * expand_percent) 200),
          max 0 (Int.tdiv (200 * x0 - (x1 - x0) * expand_percent) 200),
          min img_height (Int.tdiv (200 * y1 + (y1 - y0) * expand_percent) 200),
          min img_width (Int.tdiv (200 * x1 + (x1 - x0) * expand_percent) 200))
  else some (y0, x0, y1, x1)

/-- Processing of one entry once its coordinate list is known (the
unpacking `y0, x0, y1, x1 = [...]` raises `ValueError` unless the list has
exactly four elements, then main.py lines 100-115 run). -/
def processCoords (item : Json) (coords : List Int)
    (img_height img_width expand_percent : Int) : Except PyErr (Option RoomData) :=
  match coords with
  | [ny0, nx0, ny1, nx1] =>
    match normalizeBox ny0 nx0 ny1 nx1 img_height img_width expand_percent with
    | none => .ok none
    | some (y0, x0, y1, x1) =>
      .ok (some ⟨y0, x0, y1, x1,
        pyGet item "label" (.str "Unknown"),
        pyGet item "dimensions" (.str "N/A")⟩)
  | _ => .error .valueError

/-- Processing of one detection entry (main.py lines 98-115).  `.ok none`
models a `continue` on a degenerate box; `.error` models a raised
exception (which the caller catches only for `KeyError`, `IndexError`,
`ValueError`). -/
def processItem (item : Json) (img_height img_width expand_percent : Int) :
    Except PyErr (Option RoomData) :=
  match extractCoords item with
  | .error e => .error e
  | .ok coords => processCoords item coords img_height img_width expand_percent

/-- The per-item loop of `parse_room_data` (main.py lines 97-118):
`KeyError`, `IndexError` and `ValueError` are caught and the item skipped;
any other exception (notably `TypeError` and `OverflowError`)
propagates. -/
def parse_items (items : List Json) (img_height img_width expand_percent : Int) :
    Except PyErr (List RoomData) :=
  match items with
  | [] => .ok []
  | item :: rest =>
    match processItem item img_height img_width expand_percent with
    | .error .keyError => parse_items rest img_height img_width expand_percent
    | .error .indexError => parse_items rest img_height img_width expand_percent
    | .error .valueError => parse_items rest img_height img_width expand_percent
    | .error e => .error e
    | .ok none => parse_items rest img_height img_width expand_percent
    | .ok (some r) =>
      match parse_items rest img_height img_width expand_percent with
      | .error e => .error e
      | .ok rs => .ok (r :: rs)

/-- Model of `parse_room_data` (main.py lines 93-119); the default
`expand_percent` in the source is 5 and the pipeline calls it with that
default. -/
def parse_room_data (predicted_str : String) (img_height img_width : Int)
    (expand_percent : Int) : Except PyErr (List RoomData) :=
  match pyIter (parse_json_output predicted_str) with
  | .error e => .error e
  | .ok items => parse_items items img_height img_width expand_percent

/-- Items the normalizer iterates over for a given input string (empty when
iteration itself raises). -/
def itemsOf (s : String) : List Json :=
  match pyIter (parse_json_output s) with
  | .ok items => items
  | .error _ => []

example : parse_room_data "[\x7b\"box_2d\": [100, 100, 400, 400], \"label\": \"Room\", \"dimensions\": \"4m x 4m\"\x7d]" 800 1000 0 =
    .ok [⟨80, 100, 320, 400, .str "Room", .str "4m x 4m"⟩] := by rfl
example : parse_room_data "5" 100 100 5 = .error .typeError := by rfl
example : parse_room_data "garbage" 100 100 5 = .ok [] := by rfl
example : parse_room_data "[[1, 2, 3, 4]]" 100 100 5 = .error .typeError := by rfl

example : extract_fenced "intro ```json[1]``` outro" = "[1]" := by rfl
example : parse_room_data "Here you go: ```json not valid ``` bye" 50 50 5 = .ok [] := by rfl

/-! ### The broadcast bus (`ConnectionManager`, main.py lines 49-63)

`active_connections` is a Python list of `asyncio.Queue` objects.  A queue
is modelled by a `Nat` identity together with its buffered contents (front
of the list = next message to be received).  `connect` appends a fresh
queue, `disconnect` is `list.remove` (which raises `ValueError` when the
queue is absent), and `broadcast` appends the payload to every registered
queue's buffer.  All three run without an intervening suspension point of
the cooperative scheduler, so a trace of atomic operations is faithful. -/

structure BusState where
  conns : List (Nat × List String)
deriving DecidableEq, Repr

/-- The manager at process start: no registered connections. -/
def initialBus : BusState := ⟨[]⟩

/-- Python's `list.remove` on the registry: drop the first entry whose
queue identity matches, or report `ValueError` if none matches. -/
def removeFirstConn (conns : List (Nat × List String)) (q : Nat) :
    Option (List (Nat × List String)) :=
  match conns with
  | [] => none
  | c :: rest =>
    if c.1 = q then some rest
    else
      match removeFirstConn rest q with
      | some r => some (c :: r)
      | none => none

/-- Operations a session or pipeline run can perform on the bus. -/
inductive BusOp where
  | subscribe (q : Nat) : BusOp
  | unsubscribe (q : Nat) : BusOp
  | publish (d : String) : BusOp
deriving DecidableEq

/-- One bus operation: `connect` appends `(q, [])`; `disconnect` is
`list.remove`; `broadcast` puts the payload into every registered queue. -/
def busStep (s : BusState) : BusOp → Except PyErr BusState
  | .subscribe q => .ok ⟨s.conns ++ [(q, [])]⟩
  | .unsubscribe q =>
    match removeFirstConn s.conns q with
    | some r => .ok ⟨r⟩
    | none => .error .valueError
  | .publish d => .ok ⟨s.conns.map fun c => (c.1, c.2 ++ [d])⟩

/-- Run a trace of bus operations; an uncaught `ValueError` aborts it. -/
def busRun (s : BusState) : List BusOp → Except PyErr BusState
  | [] => .ok s
  | op :: ops =>
    match busStep s op with
    | .ok s' => busRun s' ops
    | .error e => .error e

/-- Payloads published by a trace, in order. -/
def publishes : List BusOp → List String
  | [] => []
  | .publish d :: ops => d :: publishes ops
  | _ :: ops => publishes ops

/-- Does an operation subscribe or unsubscribe this queue? -/
def touchesQueue (q : Nat) : BusOp → Bool
  | .subscribe p => p = q
  | .unsubscribe p => p = q
  | .publish _ => false

/-- Registry entries belonging to queue `q`. -/
def entriesFor (s : BusState) (q : Nat) : List (Nat × List String) :=
  s.conns.filter fun c => c.1 = q

/-! ### SSE wire format (`stream_event`, main.py lines 127-130, and the
`connected` acknowledgment, line 260)

`json.dumps` with its default separators `", "` and `": "` is modelled by
`dumps`; `ensure_ascii=True` escaping is modelled for the Basic
Multilingual Plane (astral code points would use surrogate pairs, which no
string in the program contains). -/

/-- Lowercase hexadecimal digit. -/
def hexDigit (n : Nat) : Char :=
  if n < 10 then Char.ofNat (48 + n) else Char.ofNat (87 + n)

/-- Four-digit lowercase hexadecimal rendering for `\uXXXX` escapes. -/
def hex4 (n : Nat) : String :=
  String.mk [hexDigit (n / 4096 % 16), hexDigit (n / 256 % 16),
             hexDigit (n / 16 % 16), hexDigit (n % 16)]

/-- Escape one character the way `json.dumps` (default `ensure_ascii`)
does. -/
def escChar (c : Char) : String :=
  if c = '"' then "\\\""
  else if c = '\\' then "\\\\"
  else if c = '\n' then "\\n"
  else if c = '\t' then "\\t"
  else if c = '\r' then "\\r"
  else if c.toNat = 8 then "\\b"
  else if c.toNat = 12 then "\\f"
  else if c.toNat < 32 ∨ c.toNat > 126 then "\\u" ++ hex4 c.toNat
  else String.mk [c]

/-- Serialize a string literal as `json.dumps` does. -/
def dumpsStr (s : String) : String :=
  "\"" ++ String.join (s.toList.map escChar) ++ "\""

mutual

/-- Model of `json.dumps` with the default separators.  Finite floats are
rendered from their exact rational; Python's shortest-round-trip float
repr is not reproduced exactly (no string the program serializes contains
a float, so no claim depends on this case). -/
def dumps : Json → String
  | .null => "null"
  | .bool b => cond b "true" "false"
  | .num n => toString n
  | .flt (.finite q) =>
    if q.den = 1 then toString q.num ++ ".0"
    else toString q.num ++ "/" ++ toString q.den
  | .flt (.inf neg) => cond neg "-Infinity" "Infinity"
  | .flt .nan => "NaN"
  | .str s => dumpsStr s
  | .arr xs => "[" ++ dumpsList xs ++ "]"
  | .obj kvs => "\x7b" ++ dumpsMembers kvs ++ "\x7d"

/-- Comma-separated array elements. -/
def dumpsList : List Json → String
  | [] => ""
  | [x] => dumps x
  | x :: y :: xs => dumps x ++ ", " ++ dumpsList (y :: xs)

/-- Comma-separated object members. -/
def dumpsMembers : List (String × Json) → String
  | [] => ""
  | [(k, v)] => dumpsStr k ++ ": " ++ dumps v
  | (k, v) :: m :: kvs => dumpsStr k ++ ": " ++ dumps v ++ ", " ++ dumpsMembers (m :: kvs)

end

/-- Key list of a JSON object (insertion order, as `json.dumps` emits). -/
def objKeys : Json → List String
  | .obj kvs => kvs.map Prod.fst
  | _ => []

/-- The payload dict built by `stream_event` (main.py line 129):
`{"type": event_type, "data": data, "timestamp": time.time()}`.  The
timestamp is captured externally, so it is a parameter. -/
def eventPayload (event_type : String) (data ts : Json) : Json :=
  .obj [("type", .str event_type), ("data", data), ("timestamp", ts)]

/-- The wire line written for one broadcast event (main.py line 130):
the f-string interpolating the dumped payload after the SSE prefix. -/
def stream_event_line (event_type : String) (data ts : Json) : String :=
  "data: " ++ dumps (eventPayload event_type data ts) ++ "\n\n"

/-- The synthetic connection acknowledgment dict of main.py line 260:
`{'type': 'connected', 'message': 'Stream connected'}`. -/
def connectedPayload : Json :=
  .obj [("type", .str "connected"), ("message", .str "Stream connected")]

/-- The wire line the stream session writes first (main.py line 260). -/
def connected_line : String :=
  "data: " ++ dumps connectedPayload ++ "\n\n"

example : dumps connectedPayload =
    "\x7b\"type\": \"connected\", \"message\": \"Stream connected\"\x7d" := by rfl
example : jsonLoads (dumps connectedPayload) = some connectedPayload := by rfl

/-! ### The pipeline orchestrator (`run_full_pipeline`, main.py lines 133-224)

An emitted event is modelled as its `(type, data)` pair; the timestamp is
captured at emission by `time.time()` and plays no role in any claim about
the orchestrator.  Every external call (`client.aio.models.generate_content`,
`Image.open`, `uuid.uuid4`) is an oracle parameter; a generation response is
its list of parts, each either an image (identified with its base64
rendering) or a non-image part. -/

/-- One part of a generation response. -/
inductive GenPart where
  | img (b64 : String) : GenPart
  | txt (t : String) : GenPart

/-- Model of `part.as_image()` composed with `image_to_base64`: images
yield their base64 string, other parts yield `None`. -/
def as_image : GenPart → Option String
  | .img b => some b
  | .txt _ => none

/-- An emitted event: its `type` tag and its `data` payload. -/
abbrev Event := String × Json

/-- Python `str()` of a JSON-shaped value, as interpolated by f-strings
(containers use their JSON rendering; Python's `repr` quoting of nested
strings differs, but no claim depends on container labels). -/
def pyStr : Json → String
  | .str s => s
  | .num n => toString n
  | .bool b => cond b "True" "False"
  | .null => "None"
  | j => dumps j

/-- Model of `response.parts[0].as_image()` followed by its use as an
image: an empty part list raises `IndexError`, a non-image first part
makes `image_to_base64` fail on `None`. -/
def firstImage : List GenPart → Except String String
  | [] => .error "list index out of range"
  | p :: _ =>
    match as_image p with
    | some b => .ok b
    | none => .error "NoneType object has no attribute save"

/-- Results of the external collaborators for one pipeline run. -/
structure GenOracle where
  open_image : Except String (Int × Int)
  detect_text : Except String String
  style_text : Except String String
  unfurnish : Nat → Except String (List GenPart)
  furnish : Nat → Except String (List GenPart)
  interior : Nat → Except String (List GenPart)
  assemble : Except String (List GenPart)
  room_uuid : Nat → String

/-- The orchestrator's monad: an exception of message `String` over the
list of already-broadcast events. -/
abbrev PipeM := EStateM String (List Event)

/-- Broadcast one event (a `stream_event` call). -/
def emit (ev : Event) : PipeM Unit := modify (· ++ [ev])

/-- Broadcast a batch of events in order. -/
def emitAll (evs : List Event) : PipeM Unit := modify (· ++ evs)

/-- Re-raise the result of an external call inside the orchestrator. -/
def liftE {α : Type} : Except String α → PipeM α
  | .ok a => pure a
  | .error e => throw e

/-- Exceptions escaping `parse_room_data` reach the orchestrator's
`except Exception` handler; `str(e)` is modelled by the class name. -/
def pyErrStr : PyErr → String
  | .typeError => "TypeError"
  | .keyError => "KeyError"
  | .indexError => "IndexError"
  | .valueError => "ValueError"
  | .overflowError => "OverflowError"

/-- A status event `{"message": m}`. -/
def statusData (m : String) : Json := .obj [("message", .str m)]

/-- The `interior_shot` event for the part at 0-based position `i` of the
response (main.py line 204): the title index is `i + 1` from
`enumerate(response.parts)`. -/
def shotEvent (room_name room_id : String) (i : Nat) (b64 : String) : Event :=
  ("interior_shot", .obj [("roomId", .str room_id), ("image", .str b64),
    ("title", .str (room_name ++ " - Interior Shot " ++ toString (i + 1)))])

/-- The loop of main.py lines 202-204: `for i, part in
enumerate(response.parts): if image := part.as_image(): ...` — one event
per image part, indexed by its position among all parts. -/
def interiorLoop (room_name room_id : String) : Nat → List GenPart → List Event
  | _, [] => []
  | i, p :: rest =>
    match as_image p with
    | some b => shotEvent room_name room_id i b :: interiorLoop room_name room_id (i + 1) rest
    | none => interiorLoop room_name room_id (i + 1) rest

/-- Events of the InteriorShots stage for one room's response. -/
def interiorEvents (room_name room_id : String) (parts : List GenPart) : List Event :=
  interiorLoop room_name room_id 0 parts

/-- The detection loop of main.py lines 160-171: one `room_detected` event
per normalized room, with the oracle-supplied 8-character uuid token. -/
def detectLoop (o : GenOracle) : Nat → List RoomData → PipeM Unit
  | _, [] => pure ()
  | i, rd :: rest => do
    emit ("room_detected", .obj [("id", .str (o.room_uuid i)),
      ("name", rd.label), ("dimensions", rd.dimensions)])
    detectLoop o (i + 1) rest

/-- The per-room stages of main.py lines 182-204, strictly sequential. -/
def roomsLoop (o : GenOracle) (style_description : String) :
    Nat → List RoomData → PipeM Unit
  | _, [] => pure ()
  | i, rd :: rest => do
    emit ("status", statusData ("Processing room: " ++ pyStr rd.label ++ "..."))
    let uparts ← liftE (o.unfurnish i)
    let ub ← liftE (firstImage uparts)
    emit ("unfurnished_view", .obj [("roomId", .str (o.room_uuid i)), ("image", .str ub)])
    let fparts ← liftE (o.furnish i)
    let fb ← liftE (firstImage fparts)
    emit ("furnished_view", .obj [("roomId", .str (o.room_uuid i)), ("image", .str fb),
      ("title", .str (pyStr rd.label ++ " - Furnished View"))])
    let iparts ← liftE (o.interior i)
    emitAll (interiorEvents (pyStr rd.label) (o.room_uuid i) iparts)
    roomsLoop o style_description (i + 1) rest

/-- Re-raise a Python-level exception from the normalizer inside the
orchestrator, carrying `str(e)`. -/
def liftPy {α : Type} : Except PyErr α → PipeM α
  | .ok a => pure a
  | .error e => throw (pyErrStr e)

/-- The `try` body of `run_full_pipeline` (main.py lines 135-220). -/
def pipeline_body (o : GenOracle) (_style : String) : PipeM Unit := do
  let wh ← liftE o.open_image
  emit ("status", statusData "Step 1: Detecting rooms...")
  let text ← liftE o.detect_text
  let dets ← liftPy (parse_room_data text wh.2 wh.1 5)
  detectLoop o 0 dets
  emit ("status", statusData "Step 2: Generating style description...")
  let sd ← liftE o.style_text
  emit ("style_description", .obj [("description", .str sd)])
  roomsLoop o sd 0 dets
  emit ("status", statusData "Step 5: Assembling final property view...")
  let aparts ← liftE o.assemble
  let ab ← liftE (firstImage aparts)
  emit ("final_assembly", .obj [("image", .str ab),
    ("title", .str "Full Property - Assembled View")])
  emit ("status", statusData "Pipeline complete!")

/-- Model of `run_full_pipeline` (main.py lines 133-224): the body runs
under `except Exception`, which converts any raised fault into a single
`error` event appended after everything already broadcast. -/
def run_full_pipeline (o : GenOracle) (style : String) : List Event :=
  match (pipeline_body o style).run [] with
  | .ok _ evs => evs
  | .error e evs => evs ++ [("error", .obj [("message", .str e)])]

/-! ### Arithmetic facts about the rescale/expand arithmetic -/

/-- Rescaling a nonnegative normalized coordinate to a nonnegative
dimension is nonnegative. -/
theorem rescale_nonneg {n d : Int} (hn : 0 ≤ n) (hd : 0 ≤ d) : 0 ≤ rescale n d :=
  Int.tdiv_nonneg (mul_nonneg hn hd) (by norm_num)

/-- Rescaling a normalized coordinate that is at most 1000 stays below the
dimension. -/
theorem rescale_le {n d : Int} (h0 : 0 ≤ n) (hn : n ≤ 1000) (hd : 0 ≤ d) :
    rescale n d ≤ d := by
  unfold rescale
  rw [Int.tdiv_eq_ediv (mul_nonneg h0 hd) (by norm_num)]
  calc n * d / 1000 ≤ 1000 * d / 1000 :=
        Int.ediv_le_ediv (by norm_num) (mul_le_mul_of_nonneg_right hn hd)
    _ = d := Int.mul_ediv_cancel_left d (by norm_num)

/-- Shrinking the numerator by a nonnegative amount keeps the truncated
quotient at most `x` (the `int(x0 - dx)` step can only move left). -/
theorem tdiv_contract_le {x k : Int} (hx : 0 ≤ x) (hk : 0 ≤ k) :
    Int.tdiv (200 * x - k) 200 ≤ x := by
  rcases le_or_lt 0 (200 * x - k) with hpos | hneg
  · rw [Int.tdiv_eq_ediv hpos (by norm_num)]
    calc (200 * x - k) / 200 ≤ 200 * x / 200 :=
          Int.ediv_le_ediv (by norm_num) (by linarith)
      _ = x := Int.mul_ediv_cancel_left x (by norm_num)
  · have hneg' : 0 ≤ -(200 * x - k) := by linarith
    have : Int.tdiv (200 * x - k) 200 = -Int.tdiv (-(200 * x - k)) 200 := by
      rw [← Int.neg_tdiv, neg_neg]
    rw [this]
    have := Int.tdiv_nonneg hneg' (show (0 : Int) ≤ 200 by norm_num)
    linarith

/-- Growing the numerator by a nonnegative amount keeps the truncated
quotient at least `x` (the `int(x1 + dx)` step can only move right). -/
theorem tdiv_expand_ge {x k : Int} (hx : 0 ≤ x) (hk : 0 ≤ k) :
    x ≤ Int.tdiv (200 * x + k) 200 := by
  rw [Int.tdiv_eq_ediv (by linarith) (by norm_num)]
  calc x = 200 * x / 200 := (Int.mul_ediv_cancel_left x (by norm_num)).symm
    _ ≤ (200 * x + k) / 200 := Int.ediv_le_ediv (by norm_num) (by linarith)

/-- Bounds for the geometry core: with normalized coordinates inside
`[0, 1000]`, nonnegative image dimensions and a nonnegative expansion
percentage, every box `normalizeBox` returns satisfies
`0 ≤ y0 < y1 ≤ height` and `0 ≤ x0 < x1 ≤ width`. -/
theorem normalizeBox_bounds {ny0 nx0 ny1 nx1 h w ep y0 x0 y1 x1 : Int}
    (hh : 0 ≤ h) (hw : 0 ≤ w) (hep : 0 ≤ ep)
    (r1 : 0 ≤ ny0) (_r2 : ny0 ≤ 1000) (r3 : 0 ≤ nx0) (_r4 : nx0 ≤ 1000)
    (r5 : 0 ≤ ny1) (r6 : ny1 ≤ 1000) (r7 : 0 ≤ nx1) (r8 : nx1 ≤ 1000)
    (heq : normalizeBox ny0 nx0 ny1 nx1 h w ep = some (y0, x0, y1, x1)) :
    0 ≤ y0 ∧ y0 < y1 ∧ y1 ≤ h ∧ 0 ≤ x0 ∧ x0 < x1 ∧ x1 ≤ w := by
  have a0nn : 0 ≤ rescale ny0 h := rescale_nonneg r1 hh
  have a1nn : 0 ≤ rescale ny1 h := rescale_nonneg r5 hh
  have b0nn : 0 ≤ rescale nx0 w := rescale_nonneg r3 hw
  have b1nn : 0 ≤ rescale nx1 w := rescale_nonneg r7 hw
  have a1le : rescale ny1 h ≤ h := rescale_le r5 r6 hh
  have b1le : rescale nx1 w ≤ w := rescale_le r7 r8 hw
  simp only [normalizeBox] at heq
  by_cases hdeg : rescale ny0 h ≥ rescale ny1 h ∨ rescale nx0 w ≥ rescale nx1 w
  · rw [if_pos hdeg] at heq
    exact absurd heq (by simp)
  · rw [if_neg hdeg] at heq
    push_neg at hdeg
    obtain ⟨hyy, hxx⟩ := hdeg
    by_cases hpos : ep > 0
    · rw [if_pos hpos] at heq
      simp only [Option.some.injEq, Prod.mk.injEq] at heq
      obtain ⟨hy0, hx0, hy1, hx1⟩ := heq
      subst hy0 hx0 hy1 hx1
      have hkY : 0 ≤ (rescale ny1 h - rescale ny0 h) * ep :=
        mul_nonneg (by linarith) hep
      have hkX : 0 ≤ (rescale nx1 w - rescale nx0 w) * ep :=
        mul_nonneg (by linarith) hep
      have hleY : Int.tdiv (200 * rescale ny0 h - (rescale ny1 h - rescale ny0 h) * ep) 200 ≤ rescale ny0 h :=
        tdiv_contract_le a0nn hkY
      have hgeY : rescale ny1 h ≤ Int.tdiv (200 * rescale ny1 h + (rescale ny1 h - rescale ny0 h) * ep) 200 :=
        tdiv_expand_ge a1nn hkY
      have hleX : Int.tdiv (200 * rescale nx0 w - (rescale nx1 w - rescale nx0 w) * ep) 200 ≤ rescale nx0 w :=
        tdiv_contract_le b0nn hkX
      have hgeX : rescale nx1 w ≤ Int.tdiv (200 * rescale nx1 w + (rescale nx1 w - rescale nx0 w) * ep) 200 :=
        tdiv_expand_ge b1nn hkX
      refine ⟨le_max_left _ _, ?_, min_le_left _ _, le_max_left _ _, ?_, min_le_left _ _⟩
      · have h1 : max 0 (Int.tdiv (200 * rescale ny0 h - (rescale ny1 h - rescale ny0 h) * ep) 200) ≤ rescale ny0 h :=
          max_le a0nn hleY
        have h2 : rescale ny1 h ≤ min h (Int.tdiv (200 * rescale ny1 h + (rescale ny1 h - rescale ny0 h) * ep) 200) :=
          le_min a1le hgeY
        omega
      · have h1 : max 0 (Int.tdiv (200 * rescale nx0 w - (rescale nx1 w - rescale nx0 w) * ep) 200) ≤ rescale nx0 w :=
          max_le b0nn hleX
        have h2 : rescale nx1 w ≤ min w (Int.tdiv (200 * rescale nx1 w + (rescale nx1 w - rescale nx0 w) * ep) 200) :=
          le_min b1le hgeX
        omega
    · rw [if_neg hpos] at heq
      simp only [Option.some.injEq, Prod.mk.injEq] at heq
      obtain ⟨hy0, hx0, hy1, hx1⟩ := heq
      subst hy0 hx0 hy1 hx1
      exact ⟨a0nn, hyy, a1le, b0nn, hxx, b1le⟩

/-! ### Propagating the bounds through `parse_room_data` -/

/-- Decidable check that every coordinate an item's `box_2d` yields lies on
the 0-1000 normalized scale (vacuously true for items whose extraction
raises). -/
def coordsInRange (item : Json) : Bool :=
  match extractCoords item with
  | .ok cs => cs.all fun c => decide (0 ≤ c ∧ c ≤ 1000)
  | .error _ => true

/-- Unfolding equation: a successful coordinate extraction feeds
`processCoords`. -/
theorem processItem_eq_processCoords {item : Json} {coords : List Int}
    (h w ep : Int) (hec : extractCoords item = .ok coords) :
    processItem item h w ep = processCoords item coords h w ep := by
  unfold processItem
  rw [hec]

/-- Unfolding equation: a four-element coordinate list goes through
`normalizeBox`. -/
theorem processCoords_four (item : Json) (ny0 nx0 ny1 nx1 h w ep : Int) :
    processCoords item [ny0, nx0, ny1, nx1] h w ep =
      match normalizeBox ny0 nx0 ny1 nx1 h w ep with
      | none => .ok none
      | some (y0, x0, y1, x1) =>
        .ok (some ⟨y0, x0, y1, x1,
          pyGet item "label" (.str "Unknown"),
          pyGet item "dimensions" (.str "N/A")⟩) := rfl

/-- A room produced from one in-range item has its bbox inside the image
(with inclusive upper bounds). -/
theorem processItem_bounds {item : Json} {h w ep : Int} {r : RoomData}
    (hh : 0 ≤ h) (hw : 0 ≤ w) (hep : 0 ≤ ep)
    (hcir : coordsInRange item = true)
    (hpi : processItem item h w ep = .ok (some r)) :
    0 ≤ r.y0 ∧ r.y0 < r.y1 ∧ r.y1 ≤ h ∧ 0 ≤ r.x0 ∧ r.x0 < r.x1 ∧ r.x1 ≤ w := by
  unfold coordsInRange at hcir
  cases hec : extractCoords item with
  | error e =>
    rw [processItem, hec] at hpi
    exact absurd hpi (by simp)
  | ok coords =>
    rw [processItem_eq_processCoords h w ep hec] at hpi
    rw [hec] at hcir
    match coords, hpi, hcir with
    | [ny0, nx0, ny1, nx1], hpi, hcir =>
      simp only [List.all_eq_true, decide_eq_true_eq] at hcir
      have c1 := hcir ny0 (by simp)
      have c2 := hcir nx0 (by simp)
      have c3 := hcir ny1 (by simp)
      have c4 := hcir nx1 (by simp)
      rw [processCoords_four] at hpi
      cases hnb : normalizeBox ny0 nx0 ny1 nx1 h w ep with
      | none => rw [hnb] at hpi; exact absurd hpi (by simp)
      | some bb =>
        obtain ⟨y0, x0, y1, x1⟩ := bb
        rw [hnb] at hpi
        simp only [Except.ok.injEq, Option.some.injEq] at hpi
        subst hpi
        have := normalizeBox_bounds hh hw hep c1.1 c1.2 c2.1 c2.2 c3.1 c3.2 c4.1 c4.2 hnb
        simpa using this

/-- Bounds lifted through the skip-and-continue loop `parse_items`. -/
theorem parse_items_bounds {h w ep : Int} (hh : 0 ≤ h) (hw : 0 ≤ w) (hep : 0 ≤ ep) :
    ∀ (items : List Json) (rooms : List RoomData) (r : RoomData),
      (∀ item ∈ items, coordsInRange item = true) →
      parse_items items h w ep = .ok rooms → r ∈ rooms →
      0 ≤ r.y0 ∧ r.y0 < r.y1 ∧ r.y1 ≤ h ∧ 0 ≤ r.x0 ∧ r.x0 < r.x1 ∧ r.x1 ≤ w := by
  intro items
  induction items with
  | nil =>
    intro rooms r _ hok hr
    rw [parse_items] at hok
    simp only [Except.ok.injEq] at hok
    subst hok
    exact absurd hr (by simp)
  | cons item rest ih =>
    intro rooms r hcir hok hr
    rw [parse_items] at hok
    cases hpi : processItem item h w ep with
    | error e =>
      rw [hpi] at hok
      cases e with
      | typeError => exact absurd hok (by simp)
      | overflowError => exact absurd hok (by simp)
      | keyError => exact ih rooms r (fun i hi => hcir i (by simp [hi])) hok hr
      | indexError => exact ih rooms r (fun i hi => hcir i (by simp [hi])) hok hr
      | valueError => exact ih rooms r (fun i hi => hcir i (by simp [hi])) hok hr
    | ok o =>
      rw [hpi] at hok
      cases o with
      | none => exact ih rooms r (fun i hi => hcir i (by simp [hi])) hok hr
      | some r0 =>
        cases hrest : parse_items rest h w ep with
        | error e => rw [hrest] at hok; exact absurd hok (by simp)
        | ok rs =>
          rw [hrest] at hok
          simp only [Except.ok.injEq] at hok
          subst hok
          rcases List.mem_cons.mp hr with hEq | hMem
          · subst hEq
            exact processItem_bounds hh hw hep (hcir item (by simp)) hpi
          · exact ih rs r (fun i hi => hcir i (by simp [hi])) hrest hMem

/-- C1.  The claim as written is false (see
`bbox_bound_violation_at_width`): upper bounds are inclusive because
`min(img_width, ...)` clamps to the width itself, and without expansion no
clamping happens at all, so out-of-range normalized inputs escape the
image.  Amended claim: for every raw detection whose normalized
coordinates all lie in `[0, 1000]`, with nonnegative image dimensions and
any nonnegative `expandPercent` (including 0), every Room in the output
sequence satisfies `0 ≤ x0 < x1 ≤ width` and `0 ≤ y0 < y1 ≤ height`. -/
theorem bbox_bounds_of_inrange (s : String) (h w ep : Int)
    (rooms : List RoomData) (r : RoomData)
    (hh : 0 ≤ h) (hw : 0 ≤ w) (hep : 0 ≤ ep)
    (hrange : ∀ item ∈ itemsOf s, coordsInRange item = true)
    (hok : parse_room_data s h w ep = .ok rooms) (hr : r ∈ rooms) :
    0 ≤ r.x0 ∧ r.x0 < r.x1 ∧ r.x1 ≤ w ∧ 0 ≤ r.y0 ∧ r.y0 < r.y1 ∧ r.y1 ≤ h := by
  rw [parse_room_data] at hok
  cases hit : pyIter (parse_json_output s) with
  | error e => rw [hit] at hok; exact absurd hok (by simp)
  | ok items =>
    rw [hit] at hok
    have hitems : itemsOf s = items := by rw [itemsOf, hit]
    rw [hitems] at hrange
    obtain ⟨p1, p2, p3, p4, p5, p6⟩ := parse_items_bounds hh hw hep items rooms r hrange hok hr
    exact ⟨p4, p5, p6, p1, p2, p3⟩

/-- C1 counterexample.  A perfectly in-range detection covering the whole
image, with `expandPercent = 0`, yields the bbox `(0, 0, 10, 10)` on a
10×10 image: `x1 = width` and `y1 = height`, so the bbox does not lie
within `[0, width) × [0, height)` as the claim demands. -/
theorem bbox_bound_violation_at_width :
    parse_room_data "[\x7b\"box_2d\": [0, 0, 1000, 1000], \"label\": \"A\", \"dimensions\": \"B\"\x7d]" 10 10 0 =
      .ok [⟨0, 0, 10, 10, .str "A", .str "B"⟩] ∧ ¬ ((10 : Int) < 10 ∧ (10 : Int) < 10) :=
  ⟨rfl, by decide⟩

example : parse_room_data "[\x7b\"box_2d\": [100, 100, 400, 400], \"label\": \"Room\", \"dimensions\": \"4m x 4m\"\x7d]" 800 1000 5 =
    .ok [⟨74, 92, 326, 407, .str "Room", .str "4m x 4m"⟩] := by rfl

/-- Witness for `bbox_bounds_of_inrange` at a concrete in-range detection
on a 1000×800 image with the default expansion of 5 percent. -/
theorem bbox_bounds_of_inrange_witness :
    0 ≤ (⟨74, 92, 326, 407, .str "Room", .str "4m x 4m"⟩ : RoomData).x0 ∧
    (⟨74, 92, 326, 407, .str "Room", .str "4m x 4m"⟩ : RoomData).x0 <
      (⟨74, 92, 326, 407, .str "Room", .str "4m x 4m"⟩ : RoomData).x1 ∧
    (⟨74, 92, 326, 407, .str "Room", .str "4m x 4m"⟩ : RoomData).x1 ≤ 1000 ∧
    0 ≤ (⟨74, 92, 326, 407, .str "Room", .str "4m x 4m"⟩ : RoomData).y0 ∧
    (⟨74, 92, 326, 407, .str "Room", .str "4m x 4m"⟩ : RoomData).y0 <
      (⟨74, 92, 326, 407, .str "Room", .str "4m x 4m"⟩ : RoomData).y1 ∧
    (⟨74, 92, 326, 407, .str "Room", .str "4m x 4m"⟩ : RoomData).y1 ≤ 800 :=
  bbox_bounds_of_inrange
    "[\x7b\"box_2d\": [100, 100, 400, 400], \"label\": \"Room\", \"dimensions\": \"4m x 4m\"\x7d]"
    800 1000 5
    [⟨74, 92, 326, 407, .str "Room", .str "4m x 4m"⟩]
    ⟨74, 92, 326, 407, .str "Room", .str "4m x 4m"⟩
    (by decide) (by decide) (by decide)
    (List.forall_mem_singleton.mpr rfl) rfl (List.mem_singleton.mpr rfl)

/-- C2.  The claim's rounding formula is false (see
`rescale_not_round_counterexample`): CPython's `int()` truncates.  Amended
claim: each coordinate is rescaled as
`pixel = int(normalized / 1000 * dimension)`, i.e. truncation toward zero,
which for nonnegative inputs is the floor `(normalized * dimension) / 1000`;
and for a 1000×800 image with the single detection box `[100,100,400,400]`
and `expandPercent = 0` the output is exactly one Room whose bbox tuple
`(x0, y0, x1, y1)` is `(100, 80, 400, 320)` (as it happens, every
coordinate of this scenario is exact, so the claim's arithmetic agrees
with the code there). -/
theorem rescale_truncation_and_scenario :
    (∀ n d : Int, 0 ≤ n → 0 ≤ d → rescale n d = (n * d) / 1000) ∧
    parse_room_data "[\x7b\"box_2d\": [100, 100, 400, 400], \"label\": \"Room\", \"dimensions\": \"4m x 4m\"\x7d]" 800 1000 0 =
      .ok [⟨80, 100, 320, 400, .str "Room", .str "4m x 4m"⟩] ∧
    ((⟨80, 100, 320, 400, .str "Room", .str "4m x 4m"⟩ : RoomData).x0,
     (⟨80, 100, 320, 400, .str "Room", .str "4m x 4m"⟩ : RoomData).y0,
     (⟨80, 100, 320, 400, .str "Room", .str "4m x 4m"⟩ : RoomData).x1,
     (⟨80, 100, 320, 400, .str "Room", .str "4m x 4m"⟩ : RoomData).y1) =
      ((100 : Int), (80 : Int), (400 : Int), (320 : Int)) :=
  ⟨fun n d hn hd => Int.tdiv_eq_ediv (mul_nonneg hn hd) (by norm_num), rfl, rfl⟩

/-- C2 counterexample.  For the box `[100, 100, 999, 999]` on a 1300×1300
image, `999 / 1000 * 1300 = 1298.7`: the code outputs 1298 (truncation)
while the claimed formula `round(normalized / 1000 * dimension)` gives
1299. -/
theorem rescale_not_round_counterexample :
    parse_room_data "[\x7b\"box_2d\": [100, 100, 999, 999]\x7d]" 1300 1300 0 =
      .ok [⟨130, 130, 1298, 1298, .str "Unknown", .str "N/A"⟩] ∧
    round ((999 * 1300 : ℚ) / 1000) = 1299 ∧ (1298 : Int) ≠ 1299 :=
  ⟨rfl, by norm_num [round_eq], by decide⟩

/-- Witness for the truncation formula of
`rescale_truncation_and_scenario` at the counterexample's coordinate. -/
theorem rescale_truncation_witness : rescale 999 1300 = (999 * 1300) / 1000 :=
  rescale_truncation_and_scenario.1 999 1300 (by decide) (by decide)

/-- Shorthand for the degeneracy test of main.py line 105 on the rescaled
(pre-expansion) coordinates. -/
theorem normalizeBox_none_of_degenerate {ny0 nx0 ny1 nx1 h w ep : Int}
    (hdeg : rescale ny0 h ≥ rescale ny1 h ∨ rescale nx0 w ≥ rescale nx1 w) :
    normalizeBox ny0 nx0 ny1 nx1 h w ep = none := by
  simp only [normalizeBox]
  rw [if_pos hdeg]

/-- A non-degenerate rescaled box always produces some output box, for
every expansion percentage. -/
theorem normalizeBox_some_of_nondegenerate {ny0 nx0 ny1 nx1 h w ep : Int}
    (hy : rescale ny0 h < rescale ny1 h) (hx : rescale nx0 w < rescale nx1 w) :
    ∃ bb, normalizeBox ny0 nx0 ny1 nx1 h w ep = some bb := by
  simp only [normalizeBox]
  rw [if_neg (not_or.mpr ⟨not_le.mpr hy, not_le.mpr hx⟩)]
  by_cases hp : ep > 0
  · rw [if_pos hp]; exact ⟨_, rfl⟩
  · rw [if_neg hp]; exact ⟨_, rfl⟩

/-- C9.  A detection entry whose rescaled pre-expansion coordinates are
degenerate (`y0 >= y1` or `x0 >= x1`) contributes zero Rooms and does not
abort the processing of subsequent entries; and the check happens before
expansion: whenever the rescaled coordinates are non-degenerate, a Room is
produced for every `expandPercent` whatsoever. -/
theorem degenerate_box_skipped (item : Json) (rest : List Json)
    (h w ep ny0 nx0 ny1 nx1 : Int)
    (hec : extractCoords item = .ok [ny0, nx0, ny1, nx1]) :
    ((rescale ny0 h ≥ rescale ny1 h ∨ rescale nx0 w ≥ rescale nx1 w) →
      processItem item h w ep = .ok none ∧
      parse_items (item :: rest) h w ep = parse_items rest h w ep) ∧
    (rescale ny0 h < rescale ny1 h → rescale nx0 w < rescale nx1 w →
      ∃ r, processItem item h w ep = .ok (some r)) := by
  constructor
  · intro hdeg
    have hpi : processItem item h w ep = .ok none := by
      rw [processItem_eq_processCoords h w ep hec, processCoords_four,
        normalizeBox_none_of_degenerate hdeg]
    refine ⟨hpi, ?_⟩
    rw [parse_items, hpi]
  · intro hy hx
    obtain ⟨bb, hnb⟩ := @normalizeBox_some_of_nondegenerate ny0 nx0 ny1 nx1 h w ep hy hx
    obtain ⟨y0, x0, y1, x1⟩ := bb
    exact ⟨⟨y0, x0, y1, x1, pyGet item "label" (.str "Unknown"),
        pyGet item "dimensions" (.str "N/A")⟩,
      by rw [processItem_eq_processCoords h w ep hec, processCoords_four, hnb]⟩

/-- Witness for `degenerate_box_skipped`: a box collapsing to a line
(`y0 = y1` after rescale) is skipped while the following entry still
produces its Room, and a non-degenerate box produces a Room even with a
huge expansion percentage. -/
theorem degenerate_box_skipped_witness :
    (processItem (.obj [("box_2d", .arr [.num 500, .num 100, .num 500, .num 900])]) 100 100 5 = .ok none ∧
     parse_items [.obj [("box_2d", .arr [.num 500, .num 100, .num 500, .num 900])],
        .obj [("box_2d", .arr [.num 0, .num 0, .num 500, .num 500])]] 100 100 5 =
       parse_items [.obj [("box_2d", .arr [.num 0, .num 0, .num 500, .num 500])]] 100 100 5) ∧
    (∃ r, processItem (.obj [("box_2d", .arr [.num 0, .num 0, .num 500, .num 500])]) 100 100 1000 = .ok (some r)) :=
  ⟨(degenerate_box_skipped (.obj [("box_2d", .arr [.num 500, .num 100, .num 500, .num 900])])
      [.obj [("box_2d", .arr [.num 0, .num 0, .num 500, .num 500])]]
      100 100 5 500 100 500 900 rfl).1 (by left; decide),
   (degenerate_box_skipped (.obj [("box_2d", .arr [.num 0, .num 0, .num 500, .num 500])])
      [] 100 100 1000 0 0 500 500 rfl).2 (by decide) (by decide)⟩

/-- C10.  An entry with a structurally valid `box_2d` but no `label` or
`dimensions` key is not skipped: `item.get` supplies the defaults
`"Unknown"` and `"N/A"` (main.py line 115) and the Room is prepended to
the result of processing the remaining entries. -/
theorem missing_label_defaults (kvs : List (String × Json)) (rest : List Json)
    (h w ep ny0 nx0 ny1 nx1 : Int)
    (hec : extractCoords (.obj kvs) = .ok [ny0, nx0, ny1, nx1])
    (hlab : kvs.lookup "label" = none) (hdim : kvs.lookup "dimensions" = none)
    (hy : rescale ny0 h < rescale ny1 h) (hx : rescale nx0 w < rescale nx1 w) :
    ∃ r, processItem (.obj kvs) h w ep = .ok (some r) ∧
      r.label = .str "Unknown" ∧ r.dimensions = .str "N/A" ∧
      parse_items (.obj kvs :: rest) h w ep =
        (parse_items rest h w ep).map (fun rs => r :: rs) := by
  obtain ⟨bb, hnb⟩ := @normalizeBox_some_of_nondegenerate ny0 nx0 ny1 nx1 h w ep hy hx
  obtain ⟨y0, x0, y1, x1⟩ := bb
  have hpi : processItem (.obj kvs) h w ep =
      .ok (some ⟨y0, x0, y1, x1, pyGet (.obj kvs) "label" (.str "Unknown"),
        pyGet (.obj kvs) "dimensions" (.str "N/A")⟩) := by
    rw [processItem_eq_processCoords h w ep hec, processCoords_four, hnb]
  refine ⟨_, hpi, ?_, ?_, ?_⟩
  · show pyGet (.obj kvs) "label" (.str "Unknown") = .str "Unknown"
    rw [pyGet, hlab]
    rfl
  · show pyGet (.obj kvs) "dimensions" (.str "N/A") = .str "N/A"
    rw [pyGet, hdim]
    rfl
  · rw [parse_items, hpi]
    cases hrest : parse_items rest h w ep with
    | error e => rfl
    | ok rs => rfl

/-- Witness for `missing_label_defaults` at a concrete bare entry. -/
theorem missing_label_defaults_witness :
    ∃ r, processItem (.obj [("box_2d", .arr [.num 0, .num 0, .num 500, .num 500])]) 100 100 0 = .ok (some r) ∧
      r.label = .str "Unknown" ∧ r.dimensions = .str "N/A" ∧
      parse_items [.obj [("box_2d", .arr [.num 0, .num 0, .num 500, .num 500])]] 100 100 0 =
        (parse_items [] 100 100 0).map (fun rs => r :: rs) :=
  missing_label_defaults [("box_2d", .arr [.num 0, .num 0, .num 500, .num 500])]
    [] 100 100 0 0 0 500 500 rfl rfl rfl (by decide) (by decide)

/-- Iterating a non-iterable value only ever raises `TypeError`. -/
theorem pyIter_error {j : Json} {e : PyErr} (h : pyIter j = .error e) :
    e = .typeError := by
  cases j <;> simp only [pyIter, Except.error.injEq, reduceCtorEq] at h <;> exact h.symm

/-- The skip-and-continue loop can only raise `TypeError` or
`OverflowError`: the `except (KeyError, IndexError, ValueError)` handler
catches exactly those three classes and skips the single item. -/
theorem parse_items_error {h w ep : Int} :
    ∀ (items : List Json) (e : PyErr),
      parse_items items h w ep = .error e →
      e = .typeError ∨ e = .overflowError := by
  intro items
  induction items with
  | nil =>
    intro e he
    rw [parse_items] at he
    exact absurd he (by simp)
  | cons item rest ih =>
    intro e he
    rw [parse_items] at he
    cases hpi : processItem item h w ep with
    | error e' =>
      rw [hpi] at he
      cases e' with
      | typeError =>
        simp only [Except.error.injEq] at he
        exact Or.inl he.symm
      | overflowError =>
        simp only [Except.error.injEq] at he
        exact Or.inr he.symm
      | keyError => exact ih e he
      | indexError => exact ih e he
      | valueError => exact ih e he
    | ok o =>
      rw [hpi] at he
      cases o with
      | none => exact ih e he
      | some r =>
        cases hrest : parse_items rest h w ep with
        | error e' =>
          rw [hrest] at he
          simp only [Except.error.injEq] at he
          exact he ▸ ih e' hrest
        | ok rs =>
          rw [hrest] at he
          exact absurd he (by simp)

/-- C4.  The claim is false as stated (see
`parse_room_data_raises_counterexample`): entries that are not dicts, or
whose `box_2d` is not iterable, raise `TypeError`, and a `box_2d` holding
an infinite float (which `json.loads` produces from `1e400` or
`Infinity`) makes `int()` raise `OverflowError`; neither class is caught
by the per-item handler.  Amended claim: entries failing structural
validation with `KeyError`/`IndexError`/`ValueError` (missing `box_2d`,
wrong coordinate count, non-numeric coordinate strings, NaN coordinates)
are skipped and processing continues; text the JSON decoder rejects
yields the empty sequence; but `TypeError` (non-dict entry, non-iterable
`box_2d`, non-convertible coordinate type) and `OverflowError` (infinite
float coordinate) escape into the caller, and they are the only exception
classes that can escape. -/
theorem parse_room_data_error_containment :
    ∀ (s : String) (h w ep : Int),
      (jsonLoads (extract_fenced s) = none → parse_room_data s h w ep = .ok []) ∧
      (∀ e, parse_room_data s h w ep = .error e →
        e = .typeError ∨ e = .overflowError) ∧
      (∀ (kvs : List (String × Json)) (rest : List Json),
        kvs.lookup "box_2d" = none →
        parse_items (.obj kvs :: rest) h w ep = parse_items rest h w ep) ∧
      (∀ (kvs : List (String × Json)) (rest : List Json) (b : Json),
        kvs.lookup "box_2d" = some b → pyIter b = .error .typeError →
        parse_items (.obj kvs :: rest) h w ep = .error .typeError) ∧
      (∀ (kvs : List (String × Json)) (rest : List Json) (b : Json) (elems : List Json),
        kvs.lookup "box_2d" = some b → pyIter b = .ok elems →
        elems.mapM pyToInt = .error .overflowError →
        parse_items (.obj kvs :: rest) h w ep = .error .overflowError) := by
  intro s h w ep
  refine ⟨?_, ?_, ?_, ?_, ?_⟩
  · intro hnone
    have hpj : parse_json_output s = .arr [] := by
      rw [parse_json_output, hnone]
    rw [parse_room_data, hpj]
    rfl
  · intro e he
    rw [parse_room_data] at he
    cases hit : pyIter (parse_json_output s) with
    | error e' =>
      rw [hit] at he
      simp only [Except.error.injEq] at he
      exact Or.inl (he ▸ pyIter_error hit)
    | ok items =>
      rw [hit] at he
      exact parse_items_error items e he
  · intro kvs rest hlook
    have hec : extractCoords (.obj kvs) = .error .keyError := by
      simp only [extractCoords]
      rw [hlook]
    have hpi : processItem (.obj kvs) h w ep = .error .keyError := by
      rw [processItem, hec]
    rw [parse_items, hpi]
  · intro kvs rest b hlook hbi
    have hstep : extractCoords (.obj kvs) =
        match pyIter b with
        | .error e => .error e
        | .ok elems => elems.mapM pyToInt := by
      simp only [extractCoords]
      rw [hlook]
    have hec : extractCoords (.obj kvs) = .error .typeError := by
      rw [hstep, hbi]
    have hpi : processItem (.obj kvs) h w ep = .error .typeError := by
      rw [processItem, hec]
    rw [parse_items, hpi]
  · intro kvs rest b elems hlook hbi hmap
    have hstep : extractCoords (.obj kvs) =
        match pyIter b with
        | .error e => .error e
        | .ok elems => elems.mapM pyToInt := by
      simp only [extractCoords]
      rw [hlook]
    have hec : extractCoords (.obj kvs) = .error .overflowError := by
      rw [hstep, hbi]
      exact hmap
    have hpi : processItem (.obj kvs) h w ep = .error .overflowError := by
      rw [processItem, hec]
    rw [parse_items, hpi]

/-- C4 counterexample.  `"[[1, 2, 3, 4]]"` is valid JSON whose single
entry is a list, not a dict: `item["box_2d"]` raises `TypeError`, which
the per-item handler does not catch, so the normalizer raises into its
caller instead of skipping the entry. -/
theorem parse_room_data_raises_counterexample :
    parse_room_data "[[1, 2, 3, 4]]" 100 100 5 = .error .typeError := rfl

/-- Witness for `parse_room_data_error_containment` on concrete inputs:
an unparseable payload yields `[]`; a dict without `box_2d` is skipped
while the next entry survives; a dict whose `box_2d` is a number raises
`TypeError`; a dict whose `box_2d` holds an infinite float raises
`OverflowError`. -/
theorem parse_room_data_error_containment_witness :
    parse_room_data "oops" 10 10 5 = .ok [] ∧
    parse_items [.obj [("label", .str "A")],
        .obj [("box_2d", .arr [.num 0, .num 0, .num 500, .num 500])]] 10 10 5 =
      parse_items [.obj [("box_2d", .arr [.num 0, .num 0, .num 500, .num 500])]] 10 10 5 ∧
    parse_items [.obj [("box_2d", .num 7)]] 10 10 5 = .error .typeError ∧
    parse_items [.obj [("box_2d", .arr [.flt (.inf false), .num 0, .num 1, .num 1])]] 10 10 5 =
      .error .overflowError :=
  ⟨(parse_room_data_error_containment "oops" 10 10 5).1 rfl,
   (parse_room_data_error_containment "oops" 10 10 5).2.2.1 [("label", .str "A")]
     [.obj [("box_2d", .arr [.num 0, .num 0, .num 500, .num 500])]] rfl,
   (parse_room_data_error_containment "oops" 10 10 5).2.2.2.1 [("box_2d", .num 7)]
     [] (.num 7) rfl rfl,
   (parse_room_data_error_containment "oops" 10 10 5).2.2.2.2 [("box_2d", .arr [.flt (.inf false), .num 0, .num 1, .num 1])]
     [] (.arr [.flt (.inf false), .num 0, .num 1, .num 1])
     [.flt (.inf false), .num 0, .num 1, .num 1] rfl rfl rfl⟩

example : parse_room_data "[\x7b\"box_2d\": [Infinity, 0, 1, 1]\x7d]" 100 100 5 =
    .error .overflowError := by rfl

/-- An absent queue makes `list.remove` fail. -/
theorem removeFirstConn_none_of_lookup {conns : List (Nat × List String)} {q : Nat}
    (h : conns.lookup q = none) : removeFirstConn conns q = none := by
  induction conns with
  | nil => rfl
  | cons c rest ih =>
    obtain ⟨k, v⟩ := c
    by_cases hk : k = q
    · subst hk
      simp [List.lookup] at h
    · have hbq : (q == k) = false := beq_eq_false_iff_ne.mpr fun hq => hk hq.symm
      simp only [List.lookup, hbq] at h
      rw [removeFirstConn, if_neg hk, ih h]

/-- Removing the unique entry of a queue leaves no entry for it. -/
theorem removeFirstConn_single {conns : List (Nat × List String)} {q : Nat}
    {b : List String}
    (h : conns.filter (fun c => c.1 = q) = [(q, b)]) :
    ∃ r, removeFirstConn conns q = some r ∧ r.filter (fun c => c.1 = q) = [] := by
  induction conns with
  | nil => simp at h
  | cons c rest ih =>
    obtain ⟨k, v⟩ := c
    by_cases hk : k = q
    · subst hk
      rw [List.filter_cons, if_pos (show (decide ((k, v).1 = k)) = true by simp)] at h
      simp only [List.cons.injEq, Prod.mk.injEq] at h
      obtain ⟨⟨_, hv⟩, hrest⟩ := h
      exact ⟨rest, by rw [removeFirstConn, if_pos rfl], hrest⟩
    · simp only [List.filter_cons, decide_eq_true_eq, if_neg hk] at h
      obtain ⟨r, hr, hfil⟩ := ih h
      refine ⟨(k, v) :: r, ?_, ?_⟩
      · rw [removeFirstConn, if_neg hk, hr]
      · simp only [List.filter_cons, decide_eq_true_eq, if_neg hk]
        exact hfil

/-- No entry for a queue means lookup misses it. -/
theorem lookup_none_of_filter_nil {conns : List (Nat × List String)} {q : Nat}
    (h : conns.filter (fun c => c.1 = q) = []) : conns.lookup q = none := by
  induction conns with
  | nil => rfl
  | cons c rest ih =>
    obtain ⟨k, v⟩ := c
    by_cases hk : k = q
    · subst hk
      simp [List.filter_cons] at h
    · simp only [List.filter_cons, decide_eq_true_eq, if_neg hk] at h
      have hbq : (q == k) = false := beq_eq_false_iff_ne.mpr fun hq => hk hq.symm
      simp only [List.lookup, hbq]
      exact ih h

/-- C3.  The claim is false (see `unsubscribe_absent_raises`):
`disconnect` is `list.remove`, which raises `ValueError` when the queue is
not registered, so the second of two unsubscribes raises.  Amended claim:
unsubscribing a handle that is not in the registry raises `ValueError`;
unsubscribing a handle registered exactly once succeeds, afterwards the
registry does not contain that handle, and a second unsubscribe of the
same handle raises `ValueError`. -/
theorem unsubscribe_remove_semantics (s : BusState) (q : Nat) :
    (s.conns.lookup q = none → busStep s (.unsubscribe q) = .error .valueError) ∧
    (∀ b, entriesFor s q = [(q, b)] →
      ∃ s', busStep s (.unsubscribe q) = .ok s' ∧ entriesFor s' q = [] ∧
        busStep s' (.unsubscribe q) = .error .valueError) := by
  constructor
  · intro hnone
    rw [busStep, removeFirstConn_none_of_lookup hnone]
  · intro b hone
    obtain ⟨r, hr, hfil⟩ := removeFirstConn_single hone
    refine ⟨⟨r⟩, ?_, hfil, ?_⟩
    · rw [busStep, hr]
    · rw [busStep, removeFirstConn_none_of_lookup (lookup_none_of_filter_nil hfil)]

/-- C3 counterexample.  Unsubscribing a never-registered handle raises,
and so does the second of two unsubscribes of the same handle. -/
theorem unsubscribe_absent_raises :
    busStep initialBus (.unsubscribe 0) = .error .valueError ∧
    busRun initialBus [.subscribe 0, .unsubscribe 0, .unsubscribe 0] = .error .valueError :=
  ⟨rfl, rfl⟩

/-- Witness for `unsubscribe_remove_semantics` on a one-entry registry. -/
theorem unsubscribe_remove_semantics_witness :
    (busStep ⟨[(3, ["x"])]⟩ (.unsubscribe 5) = .error .valueError) ∧
    (∃ s', busStep ⟨[(3, ["x"])]⟩ (.unsubscribe 3) = .ok s' ∧ entriesFor s' 3 = [] ∧
      busStep s' (.unsubscribe 3) = .error .valueError) :=
  ⟨(unsubscribe_remove_semantics ⟨[(3, ["x"])]⟩ 5).1 rfl,
   (unsubscribe_remove_semantics ⟨[(3, ["x"])]⟩ 3).2 ["x"] rfl⟩

/-- Appending traces composes sequentially. -/
theorem busRun_append (l1 l2 : List BusOp) :
    ∀ s, busRun s (l1 ++ l2) =
      match busRun s l1 with
      | .ok s1 => busRun s1 l2
      | .error e => .error e := by
  induction l1 with
  | nil => intro s; rfl
  | cons op l1 ih =>
    intro s
    rw [List.cons_append, busRun, busRun]
    cases busStep s op with
    | ok s1 => exact ih s1
    | error e => rfl

/-- Publishing appends to each registered buffer, so the entries of one
queue transform pointwise. -/
theorem filter_map_publish (conns : List (Nat × List String)) (q : Nat) (d : String) :
    (conns.map fun c => (c.1, c.2 ++ [d])).filter (fun c => c.1 = q) =
      (conns.filter (fun c => c.1 = q)).map fun c => (c.1, c.2 ++ [d]) := by
  induction conns with
  | nil => rfl
  | cons c rest ih =>
    obtain ⟨k, v⟩ := c
    by_cases hk : k = q
    · subst hk
      simp only [List.map_cons, List.filter_cons]
      rw [if_pos (by simp), if_pos (by simp), List.map_cons, ih]
    · simp only [List.map_cons, List.filter_cons]
      rw [if_neg (by simpa using hk), if_neg (by simpa using hk), ih]

/-- Removing some other queue's entry does not change this queue's
entries. -/
theorem removeFirstConn_entries_ne {conns r : List (Nat × List String)} {p q : Nat}
    (hne : p ≠ q) (hr : removeFirstConn conns p = some r) :
    r.filter (fun c => c.1 = q) = conns.filter (fun c => c.1 = q) := by
  induction conns generalizing r with
  | nil => simp [removeFirstConn] at hr
  | cons c rest ih =>
    obtain ⟨k, v⟩ := c
    by_cases hk : k = p
    · subst hk
      rw [removeFirstConn, if_pos rfl] at hr
      simp only [Option.some.injEq] at hr
      subst hr
      rw [List.filter_cons, if_neg (by simp [hne])]
    · rw [removeFirstConn, if_neg hk] at hr
      cases hrest : removeFirstConn rest p with
      | none => rw [hrest] at hr; exact absurd hr (by simp)
      | some r' =>
        rw [hrest] at hr
        simp only [Option.some.injEq] at hr
        subst hr
        by_cases hkq : k = q
        · rw [List.filter_cons, List.filter_cons,
            if_pos (by simp [hkq]), if_pos (by simp [hkq]), ih hrest]
        · rw [List.filter_cons, List.filter_cons,
            if_neg (by simp [hkq]), if_neg (by simp [hkq]), ih hrest]

/-- A queue with no registry entry stays unregistered along any trace that
never subscribes it. -/
theorem busRun_entries_nil {q : Nat} :
    ∀ (ops : List BusOp) (s s' : BusState),
      (∀ op ∈ ops, touchesQueue q op = false) →
      entriesFor s q = [] → busRun s ops = .ok s' → entriesFor s' q = [] := by
  intro ops
  induction ops with
  | nil =>
    intro s s' _ hnil hrun
    rw [busRun] at hrun
    simp only [Except.ok.injEq] at hrun
    exact hrun ▸ hnil
  | cons op ops ih =>
    intro s s' hav hnil hrun
    have havop : touchesQueue q op = false := hav op (by simp)
    have havops : ∀ o ∈ ops, touchesQueue q o = false := fun o ho => hav o (by simp [ho])
    rw [busRun] at hrun
    cases op with
    | subscribe p =>
      have hpq : p ≠ q := by simpa [touchesQueue] using havop
      rw [busStep] at hrun
      refine ih _ s' havops ?_ hrun
      show (s.conns ++ ([(p, [])] : List (Nat × List String))).filter (fun c => c.1 = q) = []
      rw [List.filter_append]
      have h2 : [(p, ([] : List String))].filter (fun c => c.1 = q) = [] := by
        simp [List.filter_cons, hpq]
      rw [h2, List.append_nil]
      exact hnil
    | unsubscribe p =>
      have hpq : p ≠ q := by simpa [touchesQueue] using havop
      rw [busStep] at hrun
      cases hrc : removeFirstConn s.conns p with
      | none => rw [hrc] at hrun; exact absurd hrun (by simp)
      | some r =>
        rw [hrc] at hrun
        refine ih _ s' havops ?_ hrun
        show r.filter (fun c => c.1 = q) = []
        rw [removeFirstConn_entries_ne hpq hrc]
        exact hnil
    | publish d =>
      rw [busStep] at hrun
      refine ih _ s' havops ?_ hrun
      show ((s.conns.map fun c => (c.1, c.2 ++ [d])).filter (fun c => c.1 = q)) = []
      rw [filter_map_publish]
      have : s.conns.filter (fun c => c.1 = q) = [] := hnil
      rw [this]
      rfl

/-- The buffer of a uniquely registered queue accumulates exactly the
payloads published along any trace that never touches the queue itself. -/
theorem busRun_buffer {q : Nat} :
    ∀ (ops : List BusOp) (b : List String) (s s' : BusState),
      (∀ op ∈ ops, touchesQueue q op = false) →
      entriesFor s q = [(q, b)] → busRun s ops = .ok s' →
      entriesFor s' q = [(q, b ++ publishes ops)] := by
  intro ops
  induction ops with
  | nil =>
    intro b s s' _ hone hrun
    rw [busRun] at hrun
    simp only [Except.ok.injEq] at hrun
    rw [← hrun, publishes, List.append_nil]
    exact hone
  | cons op ops ih =>
    intro b s s' hav hone hrun
    have havop : touchesQueue q op = false := hav op (by simp)
    have havops : ∀ o ∈ ops, touchesQueue q o = false := fun o ho => hav o (by simp [ho])
    rw [busRun] at hrun
    cases op with
    | subscribe p =>
      have hpq : p ≠ q := by simpa [touchesQueue] using havop
      rw [busStep] at hrun
      have hone' : entriesFor (⟨s.conns ++ [(p, [])]⟩ : BusState) q = [(q, b)] := by
        show (s.conns ++ ([(p, [])] : List (Nat × List String))).filter (fun c => c.1 = q) = [(q, b)]
        rw [List.filter_append]
        have h2 : [(p, ([] : List String))].filter (fun c => c.1 = q) = [] := by
          simp [List.filter_cons, hpq]
        rw [h2, List.append_nil]
        exact hone
      rw [show publishes (.subscribe p :: ops) = publishes ops from rfl]
      exact ih b _ s' havops hone' hrun
    | unsubscribe p =>
      have hpq : p ≠ q := by simpa [touchesQueue] using havop
      rw [busStep] at hrun
      cases hrc : removeFirstConn s.conns p with
      | none => rw [hrc] at hrun; exact absurd hrun (by simp)
      | some r =>
        rw [hrc] at hrun
        have hone' : entriesFor (⟨r⟩ : BusState) q = [(q, b)] := by
          show r.filter (fun c => c.1 = q) = [(q, b)]
          rw [removeFirstConn_entries_ne hpq hrc]
          exact hone
        rw [show publishes (.unsubscribe p :: ops) = publishes ops from rfl]
        exact ih b _ s' havops hone' hrun
    | publish d =>
      rw [busStep] at hrun
      have hone' : entriesFor (⟨s.conns.map fun c => (c.1, c.2 ++ [d])⟩ : BusState) q =
          [(q, b ++ [d])] := by
        show ((s.conns.map fun c => (c.1, c.2 ++ [d])).filter (fun c => c.1 = q)) = _
        rw [filter_map_publish]
        have : s.conns.filter (fun c => c.1 = q) = [(q, b)] := hone
        rw [this]
        rfl
      have := ih (b ++ [d]) _ s' havops hone' hrun
      rw [show publishes (.publish d :: ops) = d :: publishes ops from rfl]
      rw [this]
      simp

/-- C5.  For every trace of bus operations: a queue subscribed once (and
never itself touched again) ends up registered exactly once, and its
buffer holds exactly the payloads published after its subscription, in
publish order — in particular nothing published before it subscribed, and
never an inversion of two publishes.  Since a stream session drains its
queue in FIFO order, the buffer order is the delivery order. -/
theorem bus_subscriber_delivery (pre post : List BusOp) (q : Nat) (s' : BusState)
    (hpre : ∀ op ∈ pre, touchesQueue q op = false)
    (hpost : ∀ op ∈ post, touchesQueue q op = false)
    (hrun : busRun initialBus (pre ++ .subscribe q :: post) = .ok s') :
    entriesFor s' q = [(q, publishes post)] := by
  rw [busRun_append] at hrun
  cases h1 : busRun initialBus pre with
  | error e => rw [h1] at hrun; exact absurd hrun (by simp)
  | ok s1 =>
    rw [h1] at hrun
    have hnil : entriesFor s1 q = [] :=
      busRun_entries_nil pre initialBus s1 hpre rfl h1
    have hrun2 : busRun ⟨s1.conns ++ [(q, [])]⟩ post = .ok s' := hrun
    have hone : entriesFor (⟨s1.conns ++ [(q, [])]⟩ : BusState) q = [(q, [])] := by
      show (s1.conns ++ ([(q, [])] : List (Nat × List String))).filter (fun c => c.1 = q) = [(q, [])]
      rw [List.filter_append]
      have h2 : ([(q, [])] : List (Nat × List String)).filter (fun c => c.1 = q) = [(q, [])] := by
        simp [List.filter_cons]
      rw [h2]
      have : s1.conns.filter (fun c => c.1 = q) = [] := hnil
      rw [this, List.nil_append]
    have := busRun_buffer post [] _ s' hpost hone hrun2
    simpa using this

/-- Witness for `bus_subscriber_delivery`: queue 1 subscribes after a
publish of "E" and next to another viewer's session; it receives exactly
"a" then "b". -/
theorem bus_subscriber_delivery_witness :
    entriesFor ⟨[(1, ["a", "b"])]⟩ 1 =
      [(1, publishes [.publish "a", .unsubscribe 2, .publish "b"])] :=
  bus_subscriber_delivery [.publish "E", .subscribe 2]
    [.publish "a", .unsubscribe 2, .publish "b"] 1 ⟨[(1, ["a", "b"])]⟩
    (by decide) (by decide) rfl

/-- C6.  The claim is false for the synthetic acknowledgment (see
`connected_ack_missing_keys`): the `connected` event's JSON object has
exactly the keys `type` and `message` — no `data`, no `timestamp`.
Amended claim: every bus-sourced event is one line `data: ` followed by a
JSON object with exactly the keys `type`, `data`, `timestamp` and a blank
line terminator; the synthetic `connected` acknowledgment is one line
`data: ` followed by a JSON object with exactly the keys `type` and
`message` and a blank line terminator. -/
theorem sse_event_format (event_type : String) (data ts : Json) :
    stream_event_line event_type data ts =
      "data: " ++ dumps (eventPayload event_type data ts) ++ "\n\n" ∧
    objKeys (eventPayload event_type data ts) = ["type", "data", "timestamp"] ∧
    connected_line = "data: " ++ dumps connectedPayload ++ "\n\n" ∧
    objKeys connectedPayload = ["type", "message"] ∧
    jsonLoads (dumps connectedPayload) = some connectedPayload :=
  ⟨rfl, rfl, rfl, rfl, rfl⟩

/-- C6 counterexample.  The `connected` acknowledgment written at session
start does not carry the keys `type`, `data`, `timestamp`: its object has
keys `type` and `message`, with neither `data` nor `timestamp` present. -/
theorem connected_ack_missing_keys :
    objKeys connectedPayload = ["type", "message"] ∧
    ("data" ∈ objKeys connectedPayload) = False ∧
    ("timestamp" ∈ objKeys connectedPayload) = False :=
  ⟨rfl, by simp [objKeys, connectedPayload], by simp [objKeys, connectedPayload]⟩

/-- The `image` field of an event's payload. -/
def eventImage (ev : Event) : Option Json :=
  match ev.2 with
  | .obj kvs => kvs.lookup "image"
  | _ => none

/-- Helper: the number of events the interior-shot loop emits equals the
number of image parts, from any start index. -/
theorem interiorLoop_length (room_name room_id : String) :
    ∀ (parts : List GenPart) (i : Nat),
      (interiorLoop room_name room_id i parts).length =
        (parts.filterMap as_image).length := by
  intro parts
  induction parts with
  | nil => intro i; rfl
  | cons p rest ih =>
    intro i
    cases p with
    | img b => simp [interiorLoop, as_image, List.filterMap_cons, ih]
    | txt t => simp [interiorLoop, as_image, List.filterMap_cons, ih]

/-- Helper: the loop emits the images in generation order. -/
theorem interiorLoop_images (room_name room_id : String) :
    ∀ (parts : List GenPart) (i : Nat),
      (interiorLoop room_name room_id i parts).map eventImage =
        (parts.filterMap as_image).map (fun b => some (.str b)) := by
  intro parts
  induction parts with
  | nil => intro i; rfl
  | cons p rest ih =>
    intro i
    cases p with
    | img b =>
      simp only [interiorLoop, as_image, List.filterMap_cons, List.map_cons, ih, eventImage, shotEvent]
      rfl
    | txt t => simp [interiorLoop, as_image, List.filterMap_cons, ih]

/-- Helper: every emitted event is an `interior_shot`. -/
theorem interiorLoop_types (room_name room_id : String) :
    ∀ (parts : List GenPart) (i : Nat) (ev : Event),
      ev ∈ interiorLoop room_name room_id i parts → ev.1 = "interior_shot" := by
  intro parts
  induction parts with
  | nil => intro i ev hev; exact absurd hev (by simp [interiorLoop])
  | cons p rest ih =>
    intro i ev hev
    cases p with
    | img b =>
      rw [interiorLoop] at hev
      simp only [as_image] at hev
      rcases List.mem_cons.mp hev with hEq | hMem
      · subst hEq; rfl
      · exact ih (i + 1) ev hMem
    | txt t =>
      rw [interiorLoop] at hev
      simp only [as_image] at hev
      exact ih (i + 1) ev hev

/-- Helper: the image at 0-based position `i` among all response parts is
emitted with title index `i + 1`. -/
theorem interiorLoop_mem (room_name room_id : String) :
    ∀ (parts : List GenPart) (j i : Nat) (p : GenPart) (b : String),
      parts[i]? = some p → as_image p = some b →
      shotEvent room_name room_id (j + i) b ∈ interiorLoop room_name room_id j parts := by
  intro parts
  induction parts with
  | nil => intro j i p b hp _; simp at hp
  | cons q rest ih =>
    intro j i p b hp hb
    cases i with
    | zero =>
      simp only [List.getElem?_cons_zero, Option.some.injEq] at hp
      subst hp
      rw [interiorLoop, hb]
      exact List.mem_cons_self _ _
    | succ i' =>
      simp only [List.getElem?_cons_succ] at hp
      have hmem := ih (j + 1) i' p b hp hb
      have harith : j + 1 + i' = j + (i' + 1) := by omega
      rw [harith] at hmem
      cases hq : as_image q with
      | some bq =>
        rw [interiorLoop, hq]
        exact List.mem_cons_of_mem _ hmem
      | none =>
        rw [interiorLoop, hq]
        exact hmem

/-- C7.  The claim's consecutive indexing is false (see
`interior_shot_index_gap`): `enumerate(response.parts)` indexes all parts,
so non-image entries create gaps.  Amended claim: exactly one
`interior_shot` event is emitted per image in the response, non-image
entries are silently skipped, the emitted shots appear in generation
order, and each shot's title index is `i + 1` where `i` is the image's
0-based position among all parts of the response (strictly increasing,
but not 1..N consecutive when non-image parts are interleaved). -/
theorem interior_shot_indexing (room_name room_id : String) (parts : List GenPart) :
    (interiorEvents room_name room_id parts).length =
      (parts.filterMap as_image).length ∧
    (interiorEvents room_name room_id parts).map eventImage =
      (parts.filterMap as_image).map (fun b => some (.str b)) ∧
    (∀ ev ∈ interiorEvents room_name room_id parts, ev.1 = "interior_shot") ∧
    (∀ (i : Nat) (p : GenPart) (b : String),
      parts[i]? = some p → as_image p = some b →
      shotEvent room_name room_id i b ∈ interiorEvents room_name room_id parts) :=
  ⟨interiorLoop_length room_name room_id parts 0,
   interiorLoop_images room_name room_id parts 0,
   fun ev hev => interiorLoop_types room_name room_id parts 0 ev hev,
   fun i p b hp hb => by
     have := interiorLoop_mem room_name room_id parts 0 i p b hp hb
     simpa using this⟩

/-- C7 counterexample.  A response with one non-image part followed by one
image yields a single shot titled "Interior Shot 2": the indices are not
1..N (here N = 1 would demand "Interior Shot 1"). -/
theorem interior_shot_index_gap :
    interiorEvents "Kitchen" "r1" [.txt "caption", .img "IMG"] =
      [("interior_shot", .obj [("roomId", .str "r1"), ("image", .str "IMG"),
        ("title", .str "Kitchen - Interior Shot 2")])] ∧
    "Kitchen - Interior Shot 2" ≠ "Kitchen - Interior Shot 1" :=
  ⟨rfl, by decide⟩

/-- Witness for `interior_shot_indexing` on a response with an interleaved
non-image part. -/
theorem interior_shot_indexing_witness :
    (interiorEvents "K" "r" [.txt "c", .img "X", .img "Y"]).length =
      (([.txt "c", .img "X", .img "Y"] : List GenPart).filterMap as_image).length ∧
    shotEvent "K" "r" 1 "X" ∈ interiorEvents "K" "r" [.txt "c", .img "X", .img "Y"] :=
  ⟨(interior_shot_indexing "K" "r" [.txt "c", .img "X", .img "Y"]).1,
   (interior_shot_indexing "K" "r" [.txt "c", .img "X", .img "Y"]).2.2.2
     1 (.img "X") "X" rfl rfl⟩

/-! ### Error containment of the orchestrator -/

/-- No event in the list is an `error` event. -/
def noErrorEvents (evs : List Event) : Prop := ∀ ev ∈ evs, ev.1 ≠ "error"

/-- The event list after running a pipeline fragment, for both outcomes. -/
def outState {α : Type} (m : PipeM α) (s : List Event) : List Event :=
  match m.run s with
  | .ok _ s' => s'
  | .error _ s' => s'

/-- A pipeline fragment only appends events, and never an `error` one:
the `error` event is produced exclusively by the `except` handler. -/
def Appends {α : Type} (m : PipeM α) : Prop :=
  ∀ s : List Event, ∃ d, noErrorEvents d ∧ outState m s = s ++ d

/-- Running a bind whose first fragment succeeds continues with the
second fragment from the intermediate state. -/
theorem run_bind_ok {α β : Type} {m : PipeM α} {f : α → PipeM β}
    {s s' : List Event} {a : α} (h : m.run s = .ok a s') :
    (m >>= f).run s = (f a).run s' := by
  show EStateM.bind m f s = _
  simp only [EStateM.run] at h
  unfold EStateM.bind
  rw [h]
  rfl

/-- Running a bind whose first fragment fails stops with its error and
state. -/
theorem run_bind_error {α β : Type} {m : PipeM α} {f : α → PipeM β}
    {s s' : List Event} {e : String} (h : m.run s = .error e s') :
    (m >>= f).run s = .error e s' := by
  show EStateM.bind m f s = _
  simp only [EStateM.run] at h
  unfold EStateM.bind
  rw [h]

/-- Binding preserves the append-only property. -/
theorem appends_bind {α β : Type} {m : PipeM α} {f : α → PipeM β}
    (hm : Appends m) (hf : ∀ a, Appends (f a)) : Appends (m >>= f) := by
  intro s
  obtain ⟨d1, hnd1, hd1⟩ := hm s
  cases hrun : m.run s with
  | ok a s1 =>
    obtain ⟨d2, hnd2, hd2⟩ := hf a s1
    refine ⟨d1 ++ d2, ?_, ?_⟩
    · intro ev hev
      rcases List.mem_append.mp hev with hl | hr
      · exact hnd1 ev hl
      · exact hnd2 ev hr
    · have h1 : s1 = s ++ d1 := by rw [outState, hrun] at hd1; exact hd1
      rw [outState, run_bind_ok hrun]
      show outState (f a) s1 = s ++ (d1 ++ d2)
      rw [hd2, h1, List.append_assoc]
  | error e s1 =>
    refine ⟨d1, hnd1, ?_⟩
    have h1 : s1 = s ++ d1 := by rw [outState, hrun] at hd1; exact hd1
    rw [outState, run_bind_error hrun]
    exact h1

/-- A pure value appends nothing. -/
theorem appends_pure {α : Type} (a : α) : Appends (pure a : PipeM α) := by
  intro s
  refine ⟨[], ?_, ?_⟩
  · intro ev hev; simp at hev
  · rw [List.append_nil]; rfl

/-- Throwing appends nothing (the events already broadcast stay). -/
theorem appends_throw {α : Type} (e : String) : Appends (throw e : PipeM α) := by
  intro s
  refine ⟨[], ?_, ?_⟩
  · intro ev hev; simp at hev
  · rw [List.append_nil]; rfl

/-- Lifting an external result appends nothing. -/
theorem appends_liftE {α : Type} (x : Except String α) : Appends (liftE x) := by
  cases x with
  | ok a => exact appends_pure a
  | error e => exact appends_throw e

/-- Emitting one non-`error` event appends exactly it. -/
theorem appends_emit (ev : Event) (h : ev.1 ≠ "error") : Appends (emit ev) := by
  intro s
  refine ⟨[ev], ?_, rfl⟩
  intro ev' hev'
  rcases List.mem_singleton.mp hev' with rfl
  exact h

/-- Emitting a batch of non-`error` events appends exactly them. -/
theorem appends_emitAll (evs : List Event) (h : noErrorEvents evs) :
    Appends (emitAll evs) := by
  intro s
  exact ⟨evs, h, rfl⟩

/-- The detection loop emits only `room_detected` events. -/
theorem appends_detectLoop (o : GenOracle) :
    ∀ (rds : List RoomData) (i : Nat), Appends (detectLoop o i rds) := by
  intro rds
  induction rds with
  | nil => intro i; exact appends_pure ()
  | cons rd rest ih =>
    intro i
    exact appends_bind (appends_emit _ (by simp)) fun _ => ih (i + 1)

/-- Interior-shot batches contain no `error` event. -/
theorem noErrorEvents_interior (room_name room_id : String) (parts : List GenPart) :
    noErrorEvents (interiorEvents room_name room_id parts) := by
  intro ev hev
  rw [interiorLoop_types room_name room_id parts 0 ev hev]
  decide

/-- The per-room loop emits only room-stage events. -/
theorem appends_roomsLoop (o : GenOracle) (sd : String) :
    ∀ (rds : List RoomData) (i : Nat), Appends (roomsLoop o sd i rds) := by
  intro rds
  induction rds with
  | nil => intro i; exact appends_pure ()
  | cons rd rest ih =>
    intro i
    refine appends_bind (appends_emit _ (by simp)) fun _ => ?_
    refine appends_bind (appends_liftE _) fun uparts => ?_
    refine appends_bind (appends_liftE _) fun ub => ?_
    refine appends_bind (appends_emit _ (by simp)) fun _ => ?_
    refine appends_bind (appends_liftE _) fun fparts => ?_
    refine appends_bind (appends_liftE _) fun fb => ?_
    refine appends_bind (appends_emit _ (by simp)) fun _ => ?_
    refine appends_bind (appends_liftE _) fun iparts => ?_
    refine appends_bind (appends_emitAll _ (noErrorEvents_interior _ _ _)) fun _ => ?_
    exact ih (i + 1)

/-- The whole `try` body is append-only and never emits an `error`
event itself. -/
theorem appends_pipeline_body (o : GenOracle) (style : String) :
    Appends (pipeline_body o style) := by
  unfold pipeline_body
  refine appends_bind (appends_liftE _) fun wh => ?_
  refine appends_bind (appends_emit _ (by simp)) fun _ => ?_
  refine appends_bind (appends_liftE _) fun text => ?_
  refine appends_bind ?_ fun dets => ?_
  · unfold liftPy
    cases parse_room_data text wh.2 wh.1 5 with
    | ok ds => exact appends_pure ds
    | error e => exact appends_throw _
  · refine appends_bind (appends_detectLoop o dets 0) fun _ => ?_
    refine appends_bind (appends_emit _ (by simp)) fun _ => ?_
    refine appends_bind (appends_liftE _) fun sd => ?_
    refine appends_bind (appends_emit _ (by simp)) fun _ => ?_
    refine appends_bind (appends_roomsLoop o sd dets 0) fun _ => ?_
    refine appends_bind (appends_emit _ (by simp)) fun _ => ?_
    refine appends_bind (appends_liftE _) fun aparts => ?_
    refine appends_bind (appends_liftE _) fun ab => ?_
    refine appends_bind (appends_emit _ (by simp)) fun _ => ?_
    exact appends_emit _ (by simp)

/-- C8.  When the `try` body fails at any stage, the orchestrator's
`except Exception` handler appends exactly one `error` event carrying the
failure message; it is the last event of the run (nothing further is
emitted), the body itself never emits `error` events, and
`run_full_pipeline` is a total function of the oracle — the fault never
propagates out of the orchestrator. -/
theorem pipeline_single_error_event (o : GenOracle) (style : String)
    (e : String) (evs : List Event)
    (herr : (pipeline_body o style).run [] = .error e evs) :
    run_full_pipeline o style = evs ++ [("error", .obj [("message", .str e)])] ∧
    (run_full_pipeline o style).countP (fun ev => ev.1 == "error") = 1 ∧
    (run_full_pipeline o style).getLast? =
      some ("error", .obj [("message", .str e)]) := by
  obtain ⟨d, hnd, hd⟩ := appends_pipeline_body o style []
  rw [outState, herr] at hd
  have hevs : noErrorEvents evs := by
    rw [List.nil_append] at hd
    have hd' : evs = d := hd
    rw [hd']
    exact hnd
  have hrfp : run_full_pipeline o style =
      evs ++ [("error", .obj [("message", .str e)])] := by
    rw [run_full_pipeline, herr]
  refine ⟨hrfp, ?_, ?_⟩
  · rw [hrfp, List.countP_append]
    have h0 : evs.countP (fun ev => ev.1 == "error") = 0 :=
      List.countP_eq_zero.mpr fun ev hev =>
        by simp [beq_eq_false_iff_ne.mpr (hevs ev hev)]
    rw [h0]
    rfl
  · rw [hrfp]
    exact List.getLast?_concat _

/-- An oracle whose very first collaborator call (opening the uploaded
image) raises. -/
def failingOracle : GenOracle where
  open_image := .error "cannot identify image file"
  detect_text := .error "stage unavailable"
  style_text := .error "stage unavailable"
  unfurnish := fun _ => .error "stage unavailable"
  furnish := fun _ => .error "stage unavailable"
  interior := fun _ => .error "stage unavailable"
  assemble := .error "stage unavailable"
  room_uuid := fun _ => "roomid00"

/-- Witness for `pipeline_single_error_event`: a run whose image open
fails emits exactly the one `error` event and nothing else. -/
theorem pipeline_single_error_event_witness :
    run_full_pipeline failingOracle "modern" =
      [] ++ [("error", .obj [("message", .str "cannot identify image file")])] ∧
    (run_full_pipeline failingOracle "modern").countP (fun ev => ev.1 == "error") = 1 ∧
    (run_full_pipeline failingOracle "modern").getLast? =
      some ("error", .obj [("message", .str "cannot identify image file")]) :=
  pipeline_single_error_event failingOracle "modern" "cannot identify image file" [] rfl
